import Mathlib

/-!
# SOMAS (Safe Optimized Memory Allocation Solver) — verification development

Shallow embedding of the memory-reuse planning engine implemented in
`mindspore/ccsrc/backend/common/somas/somas.cc`, together with theorems about
its conflict-matrix construction, ref-node and contiguous-buffer constraint
preprocessing, semi-lifelong restriction pass, and the cached-layout loader.

Bitset rows (`DynamicBitSet`) are modelled as `Finset ℕ` (the set of column
indices whose bit is true); the mutable row vectors (`nodes_dependency`,
`reuse_matrix_`) are modelled as functions `ℕ → Finset ℕ` updated with
`Function.update`.  Mutable per-tensor scalar fields (`aligned_size_`,
`offset_`, `contiguous_`) are modelled as functions from tensor id.
-/

/-- Gap inserted at contiguous-list boundaries (`kGapSize` in somas.cc). -/
def kGapSize : ℕ := 512

/-- Tensor lifelong classification (`LifeLongType` in somas_tensor.h,
mirrored by the spec's {None, GraphAll, GraphStart, GraphEnd}). -/
inductive LifeLongType where
  | kLifeLongNone
  | kLifeLongGraphAll
  | kLifeLongGraphStart
  | kLifeLongGraphEnd
deriving DecidableEq, Repr

/-- `DynamicBitSet::SetBitFalse` on row `i`, column `j` of a row vector. -/
def setBitFalse (m : ℕ → Finset ℕ) (i j : ℕ) : ℕ → Finset ℕ :=
  Function.update m i ((m i).erase j)

/-- `DynamicBitSet::SetBitTrue` on row `i`, column `j` of a row vector. -/
def setBitTrue (m : ℕ → Finset ℕ) (i j : ℕ) : ℕ → Finset ℕ :=
  Function.update m i (insert j (m i))

/-!
## Transitive-ancestor bitsets (`Somas::ComputeConflictPairs`, path computing)

The C++ loop is

    for (const auto &node : nodes_list_) {
      for (const auto &ancestor : node->ancestor_nodes_) {
        nodes_dependency[node->GetId()].SetBitTrue(ancestor->GetId());
        Union(&nodes_dependency[node->GetId()], &nodes_dependency[ancestor->GetId()]);
      }
    }

`anc i` is the list of direct-ancestor ids of the node with id `i`
(`node->ancestor_nodes_`), and the nodes are visited in increasing id order
(`nodes_list_` was sorted by `NodeSort` just before).
-/

/-- Inner loop over one node's direct ancestors: set the ancestor's bit and
union in the ancestor's own closure row. -/
def ancLoop (i : ℕ) (dep : ℕ → Finset ℕ) : List ℕ → (ℕ → Finset ℕ)
  | [] => dep
  | a :: rest => ancLoop i (Function.update dep i (insert a (dep i ∪ dep a))) rest

/-- Outer loop over the nodes (in list order). -/
def pathLoop (anc : ℕ → List ℕ) (dep : ℕ → Finset ℕ) : List ℕ → (ℕ → Finset ℕ)
  | [] => dep
  | i :: rest => pathLoop anc (ancLoop i dep (anc i)) rest

/-- The `nodes_dependency` row vector produced by the path-computing loop,
starting from all-false bitsets. -/
def nodesDependency (anc : ℕ → List ℕ) (nodeIds : List ℕ) : ℕ → Finset ℕ :=
  pathLoop anc (fun _ => ∅) nodeIds

/-- `b` is a transitive ancestor of node `i` in the direct-ancestor graph
`anc` (one or more `anc` steps). -/
inductive Reach (anc : ℕ → List ℕ) : ℕ → ℕ → Prop
  | direct {i a : ℕ} : a ∈ anc i → Reach anc i a
  | step {i a b : ℕ} : a ∈ anc i → Reach anc a b → Reach anc i b

theorem Reach.iff_exists (anc : ℕ → List ℕ) (i m : ℕ) :
    Reach anc i m ↔ ∃ a ∈ anc i, m = a ∨ Reach anc a m := by
  constructor
  · intro h
    cases h with
    | direct ha => exact ⟨_, ha, Or.inl rfl⟩
    | step ha hr => exact ⟨_, ha, Or.inr hr⟩
  · rintro ⟨a, ha, rfl | hr⟩
    · exact Reach.direct ha
    · exact Reach.step ha hr

theorem ancLoop_apply_ne (i : ℕ) (dep : ℕ → Finset ℕ) (l : List ℕ) (j : ℕ)
    (hj : j ≠ i) : ancLoop i dep l j = dep j := by
  induction l generalizing dep with
  | nil => rfl
  | cons a rest ih =>
    rw [ancLoop, ih]
    exact Function.update_noteq hj _ _

theorem ancLoop_apply_self (i : ℕ) (dep : ℕ → Finset ℕ) (l : List ℕ)
    (hl : ∀ a ∈ l, a ≠ i) (m : ℕ) :
    m ∈ ancLoop i dep l i ↔ m ∈ dep i ∨ ∃ a ∈ l, m = a ∨ m ∈ dep a := by
  induction l generalizing dep with
  | nil => simp [ancLoop]
  | cons a rest ih =>
    have hrest : ∀ b ∈ rest, b ≠ i := fun b hb => hl b (List.mem_cons_of_mem a hb)
    have hex : (∃ b ∈ rest, m = b ∨ m ∈ Function.update dep i (insert a (dep i ∪ dep a)) b)
        ↔ ∃ b ∈ rest, m = b ∨ m ∈ dep b := by
      constructor
      · rintro ⟨b, hb, h⟩
        rw [Function.update_noteq (hrest b hb) _ _] at h
        exact ⟨b, hb, h⟩
      · rintro ⟨b, hb, h⟩
        refine ⟨b, hb, ?_⟩
        rw [Function.update_noteq (hrest b hb) _ _]
        exact h
    rw [ancLoop, ih _ hrest, Function.update_same, hex]
    simp only [Finset.mem_insert, Finset.mem_union, List.mem_cons]
    constructor
    · rintro ((hma | h | h) | ⟨b, hb, hmb⟩)
      · exact Or.inr ⟨a, Or.inl rfl, Or.inl hma⟩
      · exact Or.inl h
      · exact Or.inr ⟨a, Or.inl rfl, Or.inr h⟩
      · exact Or.inr ⟨b, Or.inr hb, hmb⟩
    · rintro (h | ⟨b, rfl | hb, hmb⟩)
      · exact Or.inl (Or.inr (Or.inl h))
      · rcases hmb with rfl | h
        · exact Or.inl (Or.inl rfl)
        · exact Or.inl (Or.inr (Or.inr h))
      · exact Or.inr ⟨b, hb, hmb⟩

theorem pathLoop_append (anc : ℕ → List ℕ) (dep : ℕ → Finset ℕ)
    (l₁ l₂ : List ℕ) :
    pathLoop anc dep (l₁ ++ l₂) = pathLoop anc (pathLoop anc dep l₁) l₂ := by
  induction l₁ generalizing dep with
  | nil => rfl
  | cons i rest ih => simp [pathLoop, ih]

theorem pathLoop_apply_not_mem (anc : ℕ → List ℕ) (dep : ℕ → Finset ℕ)
    (l : List ℕ) (j : ℕ) (hj : j ∉ l) : pathLoop anc dep l j = dep j := by
  induction l generalizing dep with
  | nil => rfl
  | cons i rest ih =>
    rw [pathLoop, ih _ (fun h => hj (List.mem_cons_of_mem i h)),
      ancLoop_apply_ne]
    intro h
    exact hj (h ▸ List.mem_cons_self i rest)

theorem pathLoop_append_stable (anc : ℕ → List ℕ) (dep : ℕ → Finset ℕ)
    (l₁ l₂ : List ℕ) (j : ℕ) (hj : j ∉ l₂) :
    pathLoop anc dep (l₁ ++ l₂) j = pathLoop anc dep l₁ j := by
  rw [pathLoop_append, pathLoop_apply_not_mem _ _ _ _ hj]

/-- Correctness of the bitset path computation: when the nodes are visited in
strictly increasing id order and every direct ancestor of a node has a smaller
id (the execution order is topological), the computed `nodes_dependency` row of
a node contains exactly its transitive ancestors. -/
theorem nodesDependency_spec (anc : ℕ → List ℕ) (nodeIds : List ℕ)
    (hsorted : nodeIds.Sorted (· < ·))
    (htopo : ∀ i ∈ nodeIds, ∀ a ∈ anc i, a < i ∧ a ∈ nodeIds) :
    ∀ i ∈ nodeIds, ∀ m, (m ∈ nodesDependency anc nodeIds i ↔ Reach anc i m) := by
  intro i
  induction i using Nat.strong_induction_on with
  | _ i ih =>
    intro hi m
    obtain ⟨pre, post, heq⟩ := List.append_of_mem hi
    subst heq
    have hp : (pre ++ i :: post).Pairwise (· < ·) := hsorted
    rw [List.pairwise_append, List.pairwise_cons] at hp
    obtain ⟨-, ⟨hpost_gt, -⟩, hcross⟩ := hp
    have hpre : ∀ x ∈ pre, x < i := fun x hx => hcross x hx i (List.mem_cons_self i post)
    have hinotpost : i ∉ post := fun h => lt_irrefl i (hpost_gt i h)
    have hinotpre : i ∉ pre := fun h => lt_irrefl i (hpre i h)
    have hstable : ∀ j, j ≠ i → j ∉ post →
        nodesDependency anc (pre ++ i :: post) j = pathLoop anc (fun _ => ∅) pre j := by
      intro j hji hjp
      rw [nodesDependency, pathLoop_append, pathLoop_apply_not_mem]
      simp [hji, hjp]
    have hanc_ne : ∀ a ∈ anc i, a ≠ i := fun a ha => Nat.ne_of_lt (htopo i hi a ha).1
    have hmain : nodesDependency anc (pre ++ i :: post) i
        = ancLoop i (pathLoop anc (fun _ => ∅) pre) (anc i) i := by
      rw [nodesDependency, pathLoop_append, pathLoop]
      exact pathLoop_apply_not_mem _ _ _ _ hinotpost
    rw [hmain, ancLoop_apply_self _ _ _ hanc_ne,
      pathLoop_apply_not_mem _ _ _ _ hinotpre, Reach.iff_exists]
    simp only [Finset.not_mem_empty, false_or]
    constructor
    · rintro ⟨a, ha, hma⟩
      obtain ⟨halt, hamem⟩ := htopo i hi a ha
      refine ⟨a, ha, ?_⟩
      rcases hma with h | hm
      · exact Or.inl h
      · have hnp : a ∉ post := fun hp2 => absurd halt (by have := hpost_gt a hp2; omega)
        rw [← hstable a (Nat.ne_of_lt halt) hnp] at hm
        exact Or.inr ((ih a halt hamem m).mp hm)
    · rintro ⟨a, ha, hma⟩
      obtain ⟨halt, hamem⟩ := htopo i hi a ha
      refine ⟨a, ha, ?_⟩
      rcases hma with h | hr
      · exact Or.inl h
      · have hnp : a ∉ post := fun hp2 => absurd halt (by have := hpost_gt a hp2; omega)
        rw [← hstable a (Nat.ne_of_lt halt) hnp]
        exact Or.inr ((ih a halt hamem m).mpr hr)

/-!
## Tensors and the all-pairs conflict computation

`SomasTensorC` carries the `SomasTensor` fields consulted during conflict
computation: `id_`/`GetId()`, `GetSourceNodeId()`, `consumer_list_` (built by
`UpdateTensorDestinations` as the per-stream maximal destination node ids),
`aligned_size_` and `lifelong_value_`.
-/

structure SomasTensorC where
  id : ℕ
  sourceNodeId : ℕ
  consumerList : List ℕ
  alignedSize : ℕ
  lifelongValue : LifeLongType
deriving DecidableEq, Repr

/-- Modelled from the spec: `SomasTensor::IsLifelong` (somas_tensor.h is not
among the sources).  Per the spec's data model, `GraphAll` is the
whole-graph-lifelong classification excluded from reuse, matching the code
comment "If the life cycle of the tensor is global ... it is not reused". -/
def SomasTensorC.IsLifelong (t : SomasTensorC) : Bool :=
  t.lifelongValue = LifeLongType.kLifeLongGraphAll

/-- Modelled from the spec: `SomasTensor::IsSemiLifelongStart`
(GraphStart semi-lifelong classification). -/
def SomasTensorC.IsSemiLifelongStart (t : SomasTensorC) : Bool :=
  t.lifelongValue = LifeLongType.kLifeLongGraphStart

/-- Modelled from the spec: `SomasTensor::IsSemiLifelongEnd`
(GraphEnd semi-lifelong classification). -/
def SomasTensorC.IsSemiLifelongEnd (t : SomasTensorC) : Bool :=
  t.lifelongValue = LifeLongType.kLifeLongGraphEnd

/-- Destination (consumer) part of a `TensorConflictInfo`.  The C++ struct
stores one or two consumer node ids inline, and otherwise an index range
`[l.index, r.index)` into the shared `destination_node_list` array; since
`BuildConflictInfo` appends exactly the tensor's `consumer_list_` there, the
slice denoted by the range is that list, which `range` stores directly. -/
inductive ConflictDests where
  | one (id : ℕ)
  | two (l r : ℕ)
  | range (ds : List ℕ)
deriving DecidableEq, Repr

/-- `Somas::BuildConflictInfo`: the 1-consumer case stores
`consumer_list_.back()` (for a singleton list, its only element), the
2-consumer case stores both, any other count goes through the shared array. -/
def buildConflictDests : List ℕ → ConflictDests
  | [c] => ConflictDests.one c
  | [c₁, c₂] => ConflictDests.two c₁ c₂
  | l => ConflictDests.range l

/-- `TensorConflictInfo`: tensor id, source node id, destination info. -/
structure TensorConflictInfo where
  tensorId : ℕ
  srcNodeId : ℕ
  dests : ConflictDests
deriving DecidableEq, Repr

def SomasTensorC.conflictInfo (t : SomasTensorC) : TensorConflictInfo :=
  ⟨t.id, t.sourceNodeId, buildConflictDests t.consumerList⟩

/-- `Somas::CheckIsDependency`: every consumer of the described tensor must be
in the dependency bitset of `srcNodeId` and must differ from `srcNodeId`. -/
def checkIsDependency (dep : ℕ → Finset ℕ) (srcNodeId : ℕ) :
    ConflictDests → Bool
  | ConflictDests.one c =>
      decide (c ∈ dep srcNodeId) && decide (srcNodeId ≠ c)
  | ConflictDests.two a b =>
      decide (a ∈ dep srcNodeId) && decide (b ∈ dep srcNodeId) &&
        decide (srcNodeId ≠ a) && decide (srcNodeId ≠ b)
  | ConflictDests.range ds =>
      ds.all fun d => decide (d ∈ dep srcNodeId) && decide (srcNodeId ≠ d)

theorem checkIsDependency_iff (dep : ℕ → Finset ℕ) (src : ℕ) (cs : List ℕ) :
    checkIsDependency dep src (buildConflictDests cs) = true ↔
      ∀ d ∈ cs, d ∈ dep src ∧ src ≠ d := by
  match cs with
  | [] => simp [buildConflictDests, checkIsDependency]
  | [c] => simp [buildConflictDests, checkIsDependency]
  | [c₁, c₂] =>
    simp only [buildConflictDests, checkIsDependency, Bool.and_eq_true,
      decide_eq_true_eq, List.mem_cons, List.not_mem_nil, or_false]
    constructor
    · rintro ⟨⟨⟨h1, h2⟩, h3⟩, h4⟩ d (rfl | rfl)
      · exact ⟨h1, h3⟩
      · exact ⟨h2, h4⟩
    · intro h
      obtain ⟨h1, h3⟩ := h c₁ (Or.inl rfl)
      obtain ⟨h2, h4⟩ := h c₂ (Or.inr rfl)
      exact ⟨⟨⟨h1, h2⟩, h3⟩, h4⟩
  | c₁ :: c₂ :: c₃ :: rest =>
    simp [buildConflictDests, checkIsDependency, List.all_eq_true]

/-- One step of the inner loop of `Somas::ComputeOneTensorConflicts`:
skip the pair when the tensor ids or the source node ids coincide, otherwise
set the bit when either direction of the dependency test succeeds. -/
def oneConflictStep (dep : ℕ → Finset ℕ) (target : SomasTensorC)
    (m : ℕ → Finset ℕ) (info : TensorConflictInfo) : ℕ → Finset ℕ :=
  if info.tensorId = target.id ∨ info.srcNodeId = target.sourceNodeId then m
  else if checkIsDependency dep target.sourceNodeId info.dests
      || checkIsDependency dep info.srcNodeId target.conflictInfo.dests then
    setBitTrue m target.id info.tensorId
  else m

/-- `Somas::ComputeOneTensorConflicts` for one target tensor. -/
def computeOneTensorConflicts (dep : ℕ → Finset ℕ)
    (infos : List TensorConflictInfo) (target : SomasTensorC)
    (m : ℕ → Finset ℕ) : ℕ → Finset ℕ :=
  infos.foldl (oneConflictStep dep target) m

/-- `Somas::ComputeMultiTensorConflicts`: run the per-tensor computation for
every target in the (candidate) tensor list. -/
def computeMultiTensorConflicts (dep : ℕ → Finset ℕ)
    (targets : List SomasTensorC) (infos : List TensorConflictInfo)
    (m : ℕ → Finset ℕ) : ℕ → Finset ℕ :=
  targets.foldl (fun m t => computeOneTensorConflicts dep infos t m) m

/-- Candidate filter of `Somas::ComputeConflictPairs`: lifelong (GraphAll)
tensors and tensors of zero aligned size are excluded. -/
def candidateTensors (tensors : List SomasTensorC) : List SomasTensorC :=
  tensors.filter fun t => !t.IsLifelong && decide (t.alignedSize ≠ 0)

/-- The `reuse_matrix_` produced by the all-pairs tensor-relation loop of
`Somas::ComputeConflictPairs` (rows start all-false; the random shuffle of
the candidate list only permutes the fold order and each target writes only
its own row, so the in-order fold is used). -/
def computeConflictMatrix (anc : ℕ → List ℕ) (nodeIds : List ℕ)
    (tensors : List SomasTensorC) : ℕ → Finset ℕ :=
  computeMultiTensorConflicts (nodesDependency anc nodeIds)
    (candidateTensors tensors)
    ((candidateTensors tensors).map SomasTensorC.conflictInfo)
    (fun _ => ∅)

/-- Inner-loop body of `Somas::ProcessSemiLifeLongTensor`: skip the tensor
itself, clear both bits when the target tensor lies on the forbidden side of
the semi-lifelong tensor's id.  (Distinct registry tensors have distinct ids,
so structural equality models the C++ pointer comparison.) -/
def semiInnerStep (calc_tensor : SomasTensorC) (m : ℕ → Finset ℕ)
    (target_tensor : SomasTensorC) : ℕ → Finset ℕ :=
  if target_tensor = calc_tensor then m
  else if (calc_tensor.IsSemiLifelongStart &&
        decide (target_tensor.id < calc_tensor.id)) ||
      (calc_tensor.IsSemiLifelongEnd &&
        decide (target_tensor.id > calc_tensor.id)) then
    setBitFalse (setBitFalse m calc_tensor.id target_tensor.id)
      target_tensor.id calc_tensor.id
  else m

/-- Outer-loop body of `Somas::ProcessSemiLifeLongTensor`. -/
def semiOuterStep (tensors : List SomasTensorC) (m : ℕ → Finset ℕ)
    (calc_tensor : SomasTensorC) : ℕ → Finset ℕ :=
  if !calc_tensor.IsSemiLifelongStart && !calc_tensor.IsSemiLifelongEnd then m
  else tensors.foldl (semiInnerStep calc_tensor) m

/-- `Somas::ProcessSemiLifeLongTensor`: for each semi-lifelong tensor, clear
both matrix bits against every tensor on the forbidden side of its id. -/
def processSemiLifeLongTensor (tensors : List SomasTensorC)
    (m : ℕ → Finset ℕ) : ℕ → Finset ℕ :=
  tensors.foldl (semiOuterStep tensors) m

theorem oneConflictStep_apply_ne (dep : ℕ → Finset ℕ) (target : SomasTensorC)
    (m : ℕ → Finset ℕ) (info : TensorConflictInfo) (j : ℕ)
    (hj : j ≠ target.id) : oneConflictStep dep target m info j = m j := by
  rw [oneConflictStep]
  split
  · rfl
  · split
    · exact Function.update_noteq hj _ _
    · rfl

theorem computeOneTensorConflicts_apply_ne (dep : ℕ → Finset ℕ)
    (infos : List TensorConflictInfo) (target : SomasTensorC)
    (m : ℕ → Finset ℕ) (j : ℕ) (hj : j ≠ target.id) :
    computeOneTensorConflicts dep infos target m j = m j := by
  induction infos generalizing m with
  | nil => rfl
  | cons info rest ih =>
    have hstep : computeOneTensorConflicts dep (info :: rest) target m
        = computeOneTensorConflicts dep rest target
            (oneConflictStep dep target m info) := rfl
    rw [hstep, ih, oneConflictStep_apply_ne _ _ _ _ _ hj]

/-- Membership in the target's own row after one `ComputeOneTensorConflicts`
pass: a column is added exactly for a conflict info that is not skipped and
passes either direction of the dependency test. -/
theorem computeOneTensorConflicts_row (dep : ℕ → Finset ℕ)
    (infos : List TensorConflictInfo) (target : SomasTensorC)
    (m : ℕ → Finset ℕ) (y : ℕ) :
    y ∈ computeOneTensorConflicts dep infos target m target.id ↔
      y ∈ m target.id ∨ ∃ info ∈ infos, info.tensorId = y ∧
        ¬(info.tensorId = target.id ∨ info.srcNodeId = target.sourceNodeId) ∧
        (checkIsDependency dep target.sourceNodeId info.dests
          || checkIsDependency dep info.srcNodeId target.conflictInfo.dests)
          = true := by
  induction infos generalizing m with
  | nil => simp [computeOneTensorConflicts]
  | cons info rest ih =>
    rw [show computeOneTensorConflicts dep (info :: rest) target m
        = computeOneTensorConflicts dep rest target
            (oneConflictStep dep target m info) from rfl, ih]
    by_cases hskip : info.tensorId = target.id ∨
        info.srcNodeId = target.sourceNodeId
    · rw [oneConflictStep, if_pos hskip]
      constructor
      · rintro (h | ⟨i, hi, h⟩)
        · exact Or.inl h
        · exact Or.inr ⟨i, List.mem_cons_of_mem info hi, h⟩
      · rintro (h | ⟨i, hi, hty, hcond, hdep⟩)
        · exact Or.inl h
        · rcases List.mem_cons.mp hi with rfl | hi
          · exact absurd hskip hcond
          · exact Or.inr ⟨i, hi, hty, hcond, hdep⟩
    · by_cases hdep : (checkIsDependency dep target.sourceNodeId info.dests
          || checkIsDependency dep info.srcNodeId target.conflictInfo.dests)
          = true
      · rw [oneConflictStep, if_neg hskip, if_pos hdep]
        simp only [setBitTrue, Function.update_same, Finset.mem_insert]
        constructor
        · rintro ((hy | h) | ⟨i, hi, h⟩)
          · exact Or.inr ⟨info, List.mem_cons_self info rest, hy.symm, hskip, hdep⟩
          · exact Or.inl h
          · exact Or.inr ⟨i, List.mem_cons_of_mem info hi, h⟩
        · rintro (h | ⟨i, hi, hty, hcond, hdep2⟩)
          · exact Or.inl (Or.inr h)
          · rcases List.mem_cons.mp hi with rfl | hi
            · exact Or.inl (Or.inl hty.symm)
            · exact Or.inr ⟨i, hi, hty, hcond, hdep2⟩
      · rw [oneConflictStep, if_neg hskip, if_neg hdep]
        constructor
        · rintro (h | ⟨i, hi, h⟩)
          · exact Or.inl h
          · exact Or.inr ⟨i, List.mem_cons_of_mem info hi, h⟩
        · rintro (h | ⟨i, hi, hty, hcond, hdep2⟩)
          · exact Or.inl h
          · rcases List.mem_cons.mp hi with rfl | hi
            · exact absurd hdep2 hdep
            · exact Or.inr ⟨i, hi, hty, hcond, hdep2⟩

theorem computeMultiTensorConflicts_apply_ne (dep : ℕ → Finset ℕ)
    (targets : List SomasTensorC) (infos : List TensorConflictInfo)
    (m : ℕ → Finset ℕ) (j : ℕ) (hj : ∀ t ∈ targets, j ≠ t.id) :
    computeMultiTensorConflicts dep targets infos m j = m j := by
  induction targets generalizing m with
  | nil => rfl
  | cons t rest ih =>
    have hstep : computeMultiTensorConflicts dep (t :: rest) infos m
        = computeMultiTensorConflicts dep rest infos
            (computeOneTensorConflicts dep infos t m) := rfl
    rw [hstep, ih _ (fun s hs => hj s (List.mem_cons_of_mem t hs)),
      computeOneTensorConflicts_apply_ne _ _ _ _ _ (hj t (List.mem_cons_self t rest))]

/-- The final row of a target tensor after the whole multi-tensor pass, when
the target ids are pairwise distinct: the row is exactly what the target's own
pass produces. -/
theorem computeMultiTensorConflicts_row (dep : ℕ → Finset ℕ)
    (targets : List SomasTensorC) (infos : List TensorConflictInfo)
    (m : ℕ → Finset ℕ)
    (hnodup : (targets.map SomasTensorC.id).Nodup)
    (t : SomasTensorC) (ht : t ∈ targets) (y : ℕ) :
    y ∈ computeMultiTensorConflicts dep targets infos m t.id ↔
      y ∈ m t.id ∨ ∃ info ∈ infos, info.tensorId = y ∧
        ¬(info.tensorId = t.id ∨ info.srcNodeId = t.sourceNodeId) ∧
        (checkIsDependency dep t.sourceNodeId info.dests
          || checkIsDependency dep info.srcNodeId t.conflictInfo.dests)
          = true := by
  obtain ⟨pre, post, heq⟩ := List.append_of_mem ht
  subst heq
  have hmap : (pre.map SomasTensorC.id
      ++ t.id :: post.map SomasTensorC.id).Nodup := by
    simpa using hnodup
  rw [List.nodup_append] at hmap
  obtain ⟨-, hcons, hdisj⟩ := hmap
  rw [List.nodup_cons] at hcons
  have hpre : ∀ s ∈ pre, t.id ≠ s.id := fun s hs he =>
    hdisj (List.mem_map_of_mem SomasTensorC.id hs)
      (he ▸ List.mem_cons_self t.id (post.map SomasTensorC.id))
  have hpost : ∀ s ∈ post, t.id ≠ s.id := fun s hs he =>
    hcons.1 (he ▸ List.mem_map_of_mem SomasTensorC.id hs)
  rw [computeMultiTensorConflicts, List.foldl_append, List.foldl_cons]
  change y ∈ computeMultiTensorConflicts dep post infos
    (computeOneTensorConflicts dep infos t
      (computeMultiTensorConflicts dep pre infos m)) t.id ↔ _
  rw [computeMultiTensorConflicts_apply_ne _ _ _ _ _ hpost,
    computeOneTensorConflicts_row,
    computeMultiTensorConflicts_apply_ne _ _ _ _ _ hpre]

/-- C1 (helper): one direction of the pair characterization, stated for an
ordered pair of candidate tensors. -/
theorem conflict_matrix_row_char (anc : ℕ → List ℕ) (nodeIds : List ℕ)
    (tensors : List SomasTensorC)
    (hsorted : nodeIds.Sorted (· < ·))
    (htopo : ∀ i ∈ nodeIds, ∀ a ∈ anc i, a < i ∧ a ∈ nodeIds)
    (hnodup : ((candidateTensors tensors).map SomasTensorC.id).Nodup)
    (A B : SomasTensorC)
    (hA : A ∈ candidateTensors tensors) (hB : B ∈ candidateTensors tensors)
    (hid : A.id ≠ B.id) (hsrc : A.sourceNodeId ≠ B.sourceNodeId)
    (hsA : A.sourceNodeId ∈ nodeIds) (hsB : B.sourceNodeId ∈ nodeIds) :
    B.id ∈ computeConflictMatrix anc nodeIds tensors A.id ↔
      ((∀ d ∈ A.consumerList,
          Reach anc B.sourceNodeId d ∧ B.sourceNodeId ≠ d) ∨
       (∀ d ∈ B.consumerList,
          Reach anc A.sourceNodeId d ∧ A.sourceNodeId ≠ d)) := by
  have hreach : ∀ s ∈ nodeIds, ∀ d,
      (d ∈ nodesDependency anc nodeIds s ↔ Reach anc s d) :=
    fun s hs d => nodesDependency_spec anc nodeIds hsorted htopo s hs d
  have hunfold : computeConflictMatrix anc nodeIds tensors
      = computeMultiTensorConflicts (nodesDependency anc nodeIds)
          (candidateTensors tensors)
          ((candidateTensors tensors).map SomasTensorC.conflictInfo)
          (fun _ => ∅) := rfl
  rw [hunfold, computeMultiTensorConflicts_row _ _ _ _ hnodup A hA]
  simp only [Finset.not_mem_empty, false_or]
  constructor
  · rintro ⟨info, hinfo, hty, -, hdep2⟩
    obtain ⟨Z, hZ, rfl⟩ := List.mem_map.mp hinfo
    have hZB : B = Z :=
      (List.inj_on_of_nodup_map hnodup hZ hB (by exact hty)).symm
    subst hZB
    rw [Bool.or_eq_true] at hdep2
    rcases hdep2 with h | h
    · refine Or.inr ?_
      have h2 := (checkIsDependency_iff (nodesDependency anc nodeIds)
        A.sourceNodeId B.consumerList).mp h
      exact fun d hd => ⟨(hreach _ hsA d).mp (h2 d hd).1, (h2 d hd).2⟩
    · refine Or.inl ?_
      have h2 := (checkIsDependency_iff (nodesDependency anc nodeIds)
        B.sourceNodeId A.consumerList).mp h
      exact fun d hd => ⟨(hreach _ hsB d).mp (h2 d hd).1, (h2 d hd).2⟩
  · intro hcase
    refine ⟨B.conflictInfo, List.mem_map_of_mem SomasTensorC.conflictInfo hB,
      rfl, ?_, ?_⟩
    · rintro (h | h)
      · exact hid h.symm
      · exact hsrc h.symm
    · rw [Bool.or_eq_true]
      rcases hcase with h | h
      · refine Or.inr ((checkIsDependency_iff _ _ _).mpr ?_)
        exact fun d hd => ⟨(hreach _ hsB d).mpr (h d hd).1, (h d hd).2⟩
      · refine Or.inl ((checkIsDependency_iff _ _ _).mpr ?_)
        exact fun d hd => ⟨(hreach _ hsA d).mpr (h d hd).1, (h d hd).2⟩

/-- C1: For candidate tensors X, Y (non-lifelong, non-zero aligned size,
distinct ids, distinct source nodes), the reuse-matrix bit (X, Y) produced by
the all-pairs conflict computation is set iff every consumer of X is a
transitive ancestor of Y's source node and differs from it, or symmetrically
every consumer of Y is a transitive ancestor of X's source node and differs
from it; and the two mirrored cells agree, so the matrix is symmetric. -/
theorem conflict_matrix_pair_characterization (anc : ℕ → List ℕ)
    (nodeIds : List ℕ) (tensors : List SomasTensorC)
    (hsorted : nodeIds.Sorted (· < ·))
    (htopo : ∀ i ∈ nodeIds, ∀ a ∈ anc i, a < i ∧ a ∈ nodeIds)
    (hnodup : ((candidateTensors tensors).map SomasTensorC.id).Nodup)
    (X Y : SomasTensorC)
    (hX : X ∈ candidateTensors tensors) (hY : Y ∈ candidateTensors tensors)
    (hid : X.id ≠ Y.id) (hsrc : X.sourceNodeId ≠ Y.sourceNodeId)
    (hsX : X.sourceNodeId ∈ nodeIds) (hsY : Y.sourceNodeId ∈ nodeIds) :
    (Y.id ∈ computeConflictMatrix anc nodeIds tensors X.id ↔
      ((∀ d ∈ X.consumerList,
          Reach anc Y.sourceNodeId d ∧ Y.sourceNodeId ≠ d) ∨
       (∀ d ∈ Y.consumerList,
          Reach anc X.sourceNodeId d ∧ X.sourceNodeId ≠ d))) ∧
    (Y.id ∈ computeConflictMatrix anc nodeIds tensors X.id ↔
      X.id ∈ computeConflictMatrix anc nodeIds tensors Y.id) := by
  have h1 := conflict_matrix_row_char anc nodeIds tensors hsorted htopo
    hnodup X Y hX hY hid hsrc hsX hsY
  have h2 := conflict_matrix_row_char anc nodeIds tensors hsorted htopo
    hnodup Y X hY hX hid.symm hsrc.symm hsY hsX
  refine ⟨h1, ?_⟩
  rw [h1, h2]
  exact or_comm

/-- Concrete 3-node chain graph 0 → 1 → 2 (direct ancestors). -/
def ancW : ℕ → List ℕ
  | 1 => [0]
  | 2 => [1]
  | _ => []

/-- Tensor produced by node 0, consumed at node 1. -/
def tensorW0 : SomasTensorC := ⟨0, 0, [1], 100, LifeLongType.kLifeLongNone⟩

/-- Tensor produced by node 2, consumed at node 2 (default destination). -/
def tensorW1 : SomasTensorC := ⟨1, 2, [2], 50, LifeLongType.kLifeLongNone⟩

theorem conflict_matrix_pair_characterization_witness :
    (([0, 1, 2] : List ℕ).Sorted (· < ·) ∧
      (∀ i ∈ [0, 1, 2], ∀ a ∈ ancW i, a < i ∧ a ∈ [0, 1, 2]) ∧
      ((candidateTensors [tensorW0, tensorW1]).map SomasTensorC.id).Nodup ∧
      tensorW0 ∈ candidateTensors [tensorW0, tensorW1] ∧
      tensorW1 ∈ candidateTensors [tensorW0, tensorW1] ∧
      tensorW0.id ≠ tensorW1.id ∧
      tensorW0.sourceNodeId ≠ tensorW1.sourceNodeId ∧
      tensorW0.sourceNodeId ∈ [0, 1, 2] ∧
      tensorW1.sourceNodeId ∈ [0, 1, 2]) ∧
    ((tensorW1.id ∈ computeConflictMatrix ancW [0, 1, 2]
          [tensorW0, tensorW1] tensorW0.id ↔
        ((∀ d ∈ tensorW0.consumerList,
            Reach ancW tensorW1.sourceNodeId d ∧ tensorW1.sourceNodeId ≠ d) ∨
         (∀ d ∈ tensorW1.consumerList,
            Reach ancW tensorW0.sourceNodeId d ∧ tensorW0.sourceNodeId ≠ d))) ∧
     (tensorW1.id ∈ computeConflictMatrix ancW [0, 1, 2]
          [tensorW0, tensorW1] tensorW0.id ↔
        tensorW0.id ∈ computeConflictMatrix ancW [0, 1, 2]
          [tensorW0, tensorW1] tensorW1.id)) :=
  ⟨⟨by decide, by decide, by decide, by decide, by decide, by decide,
      by decide, by decide, by decide⟩,
    conflict_matrix_pair_characterization ancW [0, 1, 2] [tensorW0, tensorW1]
      (by decide) (by decide) (by decide) tensorW0 tensorW1 (by decide)
      (by decide) (by decide) (by decide) (by decide) (by decide)⟩

/-- Concrete 2-node chain graph: node 1 has direct ancestor node 0. -/
def ancC4 : ℕ → List ℕ
  | 1 => [0]
  | _ => []

/-- T1: produced by node 0 (A), consumed only by node 1 (B). -/
def tensorC4T1 : SomasTensorC := ⟨0, 0, [1], 100, LifeLongType.kLifeLongNone⟩

/-- T2: produced by node 1 (B); with no consumer recorded it defaults to its
own source node, so its consumer list is [1]. -/
def tensorC4T2 : SomasTensorC := ⟨1, 1, [1], 100, LifeLongType.kLifeLongNone⟩

/-- C4: the dependency test rejects any consumer equal to the probed source
node (first conjunct: with a sole consumer `b`, `CheckIsDependency` against
source node `b` is false for every dependency bitset), and in the concrete
chain A→T1→B→T2 where B is both T1's only consumer and T2's source node, the
conflict matrix leaves both (T1,T2) and (T2,T1) unset. -/
theorem consumer_equals_source_not_reusable :
    (∀ (dep : ℕ → Finset ℕ) (b : ℕ),
        checkIsDependency dep b (buildConflictDests [b]) = false) ∧
    (tensorC4T2.id ∉ computeConflictMatrix ancC4 [0, 1]
        [tensorC4T1, tensorC4T2] tensorC4T1.id ∧
     tensorC4T1.id ∉ computeConflictMatrix ancC4 [0, 1]
        [tensorC4T1, tensorC4T2] tensorC4T2.id) := by
  refine ⟨fun dep b => ?_, by decide⟩
  simp [checkIsDependency, buildConflictDests]

/-- C9: two candidate tensors produced by the same source node are never
marked as permitted to reuse each other: the all-pairs loop skips the pair in
both iteration directions, leaving both matrix bits false. -/
theorem same_source_not_reusable (anc : ℕ → List ℕ) (nodeIds : List ℕ)
    (tensors : List SomasTensorC)
    (hnodup : ((candidateTensors tensors).map SomasTensorC.id).Nodup)
    (X Y : SomasTensorC)
    (hX : X ∈ candidateTensors tensors) (hY : Y ∈ candidateTensors tensors)
    (hsrc : X.sourceNodeId = Y.sourceNodeId) :
    Y.id ∉ computeConflictMatrix anc nodeIds tensors X.id ∧
    X.id ∉ computeConflictMatrix anc nodeIds tensors Y.id := by
  have hunfold : computeConflictMatrix anc nodeIds tensors
      = computeMultiTensorConflicts (nodesDependency anc nodeIds)
          (candidateTensors tensors)
          ((candidateTensors tensors).map SomasTensorC.conflictInfo)
          (fun _ => ∅) := rfl
  constructor
  · rw [hunfold, computeMultiTensorConflicts_row _ _ _ _ hnodup X hX]
    simp only [Finset.not_mem_empty, false_or]
    rintro ⟨info, hinfo, hty, hcond, -⟩
    obtain ⟨Z, hZ, rfl⟩ := List.mem_map.mp hinfo
    have hZY : Y = Z :=
      (List.inj_on_of_nodup_map hnodup hZ hY (by exact hty)).symm
    subst hZY
    exact hcond (Or.inr hsrc.symm)
  · rw [hunfold, computeMultiTensorConflicts_row _ _ _ _ hnodup Y hY]
    simp only [Finset.not_mem_empty, false_or]
    rintro ⟨info, hinfo, hty, hcond, -⟩
    obtain ⟨Z, hZ, rfl⟩ := List.mem_map.mp hinfo
    have hZX : X = Z :=
      (List.inj_on_of_nodup_map hnodup hZ hX (by exact hty)).symm
    subst hZX
    exact hcond (Or.inr hsrc)

/-- Two tensors produced by the same node 0. -/
def tensorC9A : SomasTensorC := ⟨0, 0, [1], 10, LifeLongType.kLifeLongNone⟩

def tensorC9B : SomasTensorC := ⟨1, 0, [1], 10, LifeLongType.kLifeLongNone⟩

theorem same_source_not_reusable_witness :
    (((candidateTensors [tensorC9A, tensorC9B]).map SomasTensorC.id).Nodup ∧
      tensorC9A ∈ candidateTensors [tensorC9A, tensorC9B] ∧
      tensorC9B ∈ candidateTensors [tensorC9A, tensorC9B] ∧
      tensorC9A.sourceNodeId = tensorC9B.sourceNodeId) ∧
    (tensorC9B.id ∉ computeConflictMatrix ancC4 [0, 1]
        [tensorC9A, tensorC9B] tensorC9A.id ∧
     tensorC9A.id ∉ computeConflictMatrix ancC4 [0, 1]
        [tensorC9A, tensorC9B] tensorC9B.id) :=
  ⟨⟨by decide, by decide, by decide, by decide⟩,
    same_source_not_reusable ancC4 [0, 1] [tensorC9A, tensorC9B] (by decide)
      tensorC9A tensorC9B (by decide) (by decide) (by decide)⟩

theorem setBitFalse_apply_subset (m : ℕ → Finset ℕ) (i j r : ℕ) :
    setBitFalse m i j r ⊆ m r := by
  rw [setBitFalse]
  rcases eq_or_ne r i with rfl | hr
  · rw [Function.update_same]
    exact Finset.erase_subset j (m r)
  · rw [Function.update_noteq hr]

/-- Folds whose every step only shrinks each row produce a sub-row of the
initial row. -/
theorem foldl_apply_subset {α : Type} (f : (ℕ → Finset ℕ) → α → (ℕ → Finset ℕ))
    (hf : ∀ m a j, f m a j ⊆ m j) (l : List α) (m : ℕ → Finset ℕ) (j : ℕ) :
    l.foldl f m j ⊆ m j := by
  induction l generalizing m with
  | nil => exact Finset.Subset.refl _
  | cons a rest ih =>
    rw [List.foldl_cons]
    exact (ih (f m a)).trans (hf m a j)

theorem semiInnerStep_apply_subset (c : SomasTensorC) (m : ℕ → Finset ℕ)
    (t : SomasTensorC) (j : ℕ) : semiInnerStep c m t j ⊆ m j := by
  rw [semiInnerStep]
  split
  · exact Finset.Subset.refl _
  · split
    · exact (setBitFalse_apply_subset _ _ _ _).trans
        (setBitFalse_apply_subset _ _ _ _)
    · exact Finset.Subset.refl _

theorem semiOuterStep_apply_subset (tensors : List SomasTensorC)
    (m : ℕ → Finset ℕ) (c : SomasTensorC) (j : ℕ) :
    semiOuterStep tensors m c j ⊆ m j := by
  rw [semiOuterStep]
  split
  · exact Finset.Subset.refl _
  · exact foldl_apply_subset _ (semiInnerStep_apply_subset c) tensors m j

/-- C5: after `ProcessSemiLifeLongTensor`, a GraphStart semi-lifelong tensor
has both matrix bits cleared against every tensor of strictly smaller id, and
a GraphEnd semi-lifelong tensor against every tensor of strictly larger id —
whatever the incoming matrix contained. -/
theorem semi_lifelong_restriction (tensors : List SomasTensorC)
    (m : ℕ → Finset ℕ) (S T : SomasTensorC)
    (hS : S ∈ tensors) (hT : T ∈ tensors)
    (hcase : (S.lifelongValue = LifeLongType.kLifeLongGraphStart ∧
        T.id < S.id) ∨
      (S.lifelongValue = LifeLongType.kLifeLongGraphEnd ∧ S.id < T.id)) :
    T.id ∉ processSemiLifeLongTensor tensors m S.id ∧
    S.id ∉ processSemiLifeLongTensor tensors m T.id := by
  have hidne : T.id ≠ S.id := by rcases hcase with ⟨-, h⟩ | ⟨-, h⟩ <;> omega
  have hTS : T ≠ S := fun he => hidne (he ▸ rfl)
  have hflag : ((S.IsSemiLifelongStart && decide (T.id < S.id)) ||
      (S.IsSemiLifelongEnd && decide (T.id > S.id))) = true := by
    rcases hcase with ⟨hval, hlt⟩ | ⟨hval, hlt⟩
    · simp [SomasTensorC.IsSemiLifelongStart, hval, hlt]
    · simp [SomasTensorC.IsSemiLifelongEnd, hval, hlt]
  have hnoskip : ¬((!S.IsSemiLifelongStart && !S.IsSemiLifelongEnd) = true) := by
    rcases hcase with ⟨hval, -⟩ | ⟨hval, -⟩ <;>
      simp [SomasTensorC.IsSemiLifelongStart, SomasTensorC.IsSemiLifelongEnd,
        hval]
  obtain ⟨pre, post, heq⟩ := List.append_of_mem hS
  subst heq
  have hunfold : processSemiLifeLongTensor (pre ++ S :: post) m
      = List.foldl (semiOuterStep (pre ++ S :: post)) m (pre ++ S :: post) :=
    rfl
  rw [hunfold, List.foldl_append, List.foldl_cons]
  suffices h : ∀ m1 : ℕ → Finset ℕ,
      T.id ∉ semiOuterStep (pre ++ S :: post) m1 S S.id ∧
      S.id ∉ semiOuterStep (pre ++ S :: post) m1 S T.id by
    constructor
    · intro hmem
      exact (h _).1 (foldl_apply_subset _
        (semiOuterStep_apply_subset (pre ++ S :: post)) post _ _ hmem)
    · intro hmem
      exact (h _).2 (foldl_apply_subset _
        (semiOuterStep_apply_subset (pre ++ S :: post)) post _ _ hmem)
  intro m1
  rw [semiOuterStep, if_neg hnoskip]
  obtain ⟨preT, postT, heqT⟩ := List.append_of_mem hT
  rw [heqT, List.foldl_append, List.foldl_cons]
  suffices h2 : ∀ mc : ℕ → Finset ℕ,
      T.id ∉ semiInnerStep S mc T S.id ∧ S.id ∉ semiInnerStep S mc T T.id by
    constructor
    · intro hmem
      exact (h2 _).1 (foldl_apply_subset _
        (semiInnerStep_apply_subset S) postT _ _ hmem)
    · intro hmem
      exact (h2 _).2 (foldl_apply_subset _
        (semiInnerStep_apply_subset S) postT _ _ hmem)
  intro mc
  rw [semiInnerStep, if_neg hTS, if_pos hflag]
  simp only [setBitFalse, Function.update_same,
    Function.update_noteq (Ne.symm hidne), Function.update_noteq hidne]
  exact ⟨Finset.not_mem_erase _ _, Finset.not_mem_erase _ _⟩

/-- GraphStart semi-lifelong tensor with id 5. -/
def tensorC5S : SomasTensorC := ⟨5, 0, [1], 10, LifeLongType.kLifeLongGraphStart⟩

/-- Ordinary tensor with the strictly smaller id 3. -/
def tensorC5T : SomasTensorC := ⟨3, 0, [1], 10, LifeLongType.kLifeLongNone⟩

theorem semi_lifelong_restriction_witness :
    (tensorC5S ∈ [tensorC5S, tensorC5T] ∧
      tensorC5T ∈ [tensorC5S, tensorC5T] ∧
      ((tensorC5S.lifelongValue = LifeLongType.kLifeLongGraphStart ∧
          tensorC5T.id < tensorC5S.id) ∨
        (tensorC5S.lifelongValue = LifeLongType.kLifeLongGraphEnd ∧
          tensorC5S.id < tensorC5T.id))) ∧
    (tensorC5T.id ∉ processSemiLifeLongTensor [tensorC5S, tensorC5T]
        (fun _ => {3, 5}) tensorC5S.id ∧
     tensorC5S.id ∉ processSemiLifeLongTensor [tensorC5S, tensorC5T]
        (fun _ => {3, 5}) tensorC5T.id) :=
  ⟨⟨by decide, by decide, by decide⟩,
    semi_lifelong_restriction [tensorC5S, tensorC5T] (fun _ => {3, 5})
      tensorC5S tensorC5T (by decide) (by decide) (by decide)⟩

/-!
## Ref-node constraint preprocessing (`Somas::UpdateRefTensorsConflict`)
-/

/-- One tensor-iteration of the per-group matrix loop of
`Somas::UpdateRefTensorsConflict` for the group with first member `t0`:
if bit (t0, z) is set and some group member's bit (tid, z) is clear, clear
(t0, z) and (z, t0) (the C++ inner loop breaks after the first clearing
member; since nothing is mutated before the break, this equals `any`). -/
def refConflictStep (g : List ℕ) (t0 : ℕ) (m : ℕ → Finset ℕ) (z : ℕ) :
    ℕ → Finset ℕ :=
  if z ∈ m t0 then
    if g.any (fun tid => decide (z ∉ m tid)) then
      setBitFalse (setBitFalse m t0 z) z t0
    else m
  else m

/-- Matrix part of one ref-group's processing: scan every tensor id in the
registry order (`for (SomasTensorPtr tensor : tensors_list_)`). -/
def refGroupMatrixLoop (tensorIds : List ℕ) (g : List ℕ) (t0 : ℕ)
    (m : ℕ → Finset ℕ) : ℕ → Finset ℕ :=
  tensorIds.foldl (refConflictStep g t0) m

/-- Size part of one ref-group's processing: every non-first member that is
not contiguous has its aligned size forced to 0. -/
def refGroupSizeLoop (contig : ℕ → Bool) (rest : List ℕ) (sz : ℕ → ℕ) :
    ℕ → ℕ :=
  rest.foldl (fun s tid => if contig tid then s else Function.update s tid 0) sz

/-- `Somas::UpdateRefTensorsConflict` over all ref-node constraint groups,
acting on the reuse matrix and the aligned-size table.  The C++ indexes
`ref_node_list[0]`; groups are built with at least two members, so the
empty group is unreachable and skipped. -/
def updateRefTensorsConflict (refLists : List (List ℕ)) (tensorIds : List ℕ)
    (contig : ℕ → Bool) (st : (ℕ → Finset ℕ) × (ℕ → ℕ)) :
    (ℕ → Finset ℕ) × (ℕ → ℕ) :=
  refLists.foldl
    (fun st g =>
      match g with
      | [] => st
      | t0 :: rest =>
        (refGroupMatrixLoop tensorIds (t0 :: rest) t0 st.1,
         refGroupSizeLoop contig rest st.2))
    st

/-- Input matrix of the C6 counterexample: bit (0,2) is set, bits (2,0) and
(3,0) are set, everything else clear. -/
def refCexM : ℕ → Finset ℕ
  | 0 => {2}
  | 2 => {0}
  | 3 => {0}
  | _ => ∅

/-- C6 counterexample: with the two ref groups [0,1] and [2,3] processed in
order, every member of the second group is reusable with tensor 0 in the
original matrix, yet after `UpdateRefTensorsConflict` the first member of
the second group (tensor 2) is NOT marked reusable with 0 — processing the
first group cleared the mirrored bit (2,0) first, so the claimed
iff-against-the-original-matrix fails for later groups. -/
theorem ref_conflict_intersection_counterexample :
    (0 ∈ refCexM 2 ∧ ∀ tid ∈ [2, 3], 0 ∈ refCexM tid) ∧
    0 ∉ (updateRefTensorsConflict [[0, 1], [2, 3]] [0, 1, 2, 3]
        (fun _ => false) (refCexM, fun _ => 100)).1 2 := by
  decide

theorem refConflictStep_apply_subset (g : List ℕ) (t0 : ℕ)
    (m : ℕ → Finset ℕ) (z j : ℕ) : refConflictStep g t0 m z j ⊆ m j := by
  rw [refConflictStep]
  split
  · split
    · exact (setBitFalse_apply_subset _ _ _ _).trans
        (setBitFalse_apply_subset _ _ _ _)
    · exact Finset.Subset.refl _
  · exact Finset.Subset.refl _

/-- A cell whose column is neither the scanned tensor nor the group's first
member is untouched by one scan step. -/
theorem refConflictStep_cell_pres (g : List ℕ) (t0 : ℕ) (m : ℕ → Finset ℕ)
    (z r c : ℕ) (hcz : c ≠ z) (hct0 : c ≠ t0) :
    (c ∈ refConflictStep g t0 m z r ↔ c ∈ m r) := by
  rw [refConflictStep]
  split
  · split
    · by_cases hrz : r = z
      · by_cases hzt0 : z = t0
        · simp [setBitFalse, Function.update_apply, hrz, hzt0,
            Finset.mem_erase, hcz, hct0]
        · simp [setBitFalse, Function.update_apply, hrz, hzt0,
            Finset.mem_erase, hcz, hct0]
      · by_cases hrt0 : r = t0
        · have h3 : ¬(t0 = z) := by
            rw [hrt0] at hrz
            exact hrz
          simp [setBitFalse, Function.update_apply, hrz, hrt0, h3,
            Finset.mem_erase, hcz]
        · simp [setBitFalse, Function.update_apply, hrz, hrt0]
    · exact Iff.rfl
  · exact Iff.rfl

/-- A cell of the first member's row whose column is not the scanned tensor
is untouched by one scan step. -/
theorem refConflictStep_t0row_pres (g : List ℕ) (t0 : ℕ) (m : ℕ → Finset ℕ)
    (z c : ℕ) (hcz : c ≠ z) :
    (c ∈ refConflictStep g t0 m z t0 ↔ c ∈ m t0) := by
  by_cases hct0 : c = t0
  · rw [hct0]
    have h2 : t0 ≠ z := by
      rw [hct0] at hcz
      exact hcz
    rw [refConflictStep]
    split
    · split
      · simp [setBitFalse, Function.update_apply, h2, Finset.mem_erase]
      · exact Iff.rfl
    · exact Iff.rfl
  · exact refConflictStep_cell_pres g t0 m z t0 c hcz hct0

theorem refScan_cell_pres (g : List ℕ) (t0 : ℕ) (done : List ℕ)
    (m : ℕ → Finset ℕ) (r c : ℕ) (hc : c ∉ done) (hct0 : c ≠ t0) :
    (c ∈ List.foldl (refConflictStep g t0) m done r ↔ c ∈ m r) := by
  induction done generalizing m with
  | nil => exact Iff.rfl
  | cons z rest ih =>
    rw [List.foldl_cons]
    have hcz : c ≠ z := fun h => hc (h ▸ List.mem_cons_self z rest)
    rw [ih _ (fun h => hc (List.mem_cons_of_mem z h))]
    exact refConflictStep_cell_pres g t0 m z r c hcz hct0

theorem refScan_t0row_pres (g : List ℕ) (t0 : ℕ) (done : List ℕ)
    (m : ℕ → Finset ℕ) (c : ℕ) (hc : c ∉ done) :
    (c ∈ List.foldl (refConflictStep g t0) m done t0 ↔ c ∈ m t0) := by
  induction done generalizing m with
  | nil => exact Iff.rfl
  | cons z rest ih =>
    rw [List.foldl_cons]
    have hcz : c ≠ z := fun h => hc (h ▸ List.mem_cons_self z rest)
    rw [ih _ (fun h => hc (List.mem_cons_of_mem z h))]
    exact refConflictStep_t0row_pres g t0 m z c hcz

/-- Per-group scan characterization used by the amended C6 theorem: scanning
all registry tensors for the group `t0 :: rest` intersects the first
member's row against the matrix `m` the scan starts from, clearing the
mirrored bit along with each cleared row bit. -/
theorem refGroupScan_char (tensorIds : List ℕ) (t0 : ℕ) (rest : List ℕ)
    (m : ℕ → Finset ℕ) (hnodup : tensorIds.Nodup) (hdiag : t0 ∉ m t0)
    (z : ℕ) (hz : z ∈ tensorIds) :
    (z ∈ List.foldl (refConflictStep (t0 :: rest) t0) m tensorIds t0 ↔
      (z ∈ m t0 ∧ ∀ tid ∈ t0 :: rest, z ∈ m tid)) ∧
    ((z ∈ m t0 ∧
        z ∉ List.foldl (refConflictStep (t0 :: rest) t0) m tensorIds t0) →
      t0 ∉ List.foldl (refConflictStep (t0 :: rest) t0) m tensorIds z) := by
  by_cases hzt0 : z = t0
  · rw [hzt0]
    have hL : t0 ∉ List.foldl (refConflictStep (t0 :: rest) t0) m tensorIds t0 :=
      fun hmem => hdiag (foldl_apply_subset _
        (refConflictStep_apply_subset (t0 :: rest) t0) tensorIds m t0 hmem)
    exact ⟨iff_of_false hL (fun h => hdiag h.1), fun h => absurd h.1 hdiag⟩
  · obtain ⟨pre, post, heq⟩ := List.append_of_mem hz
    subst heq
    rw [List.nodup_append, List.nodup_cons] at hnodup
    obtain ⟨-, ⟨hznotpost, -⟩, hdisj⟩ := hnodup
    have hznotpre : z ∉ pre := fun h =>
      hdisj h (List.mem_cons_self z post)
    rw [List.foldl_append, List.foldl_cons]
    set M1 := List.foldl (refConflictStep (t0 :: rest) t0) m pre with hM1
    have hg1 : z ∈ M1 t0 ↔ z ∈ m t0 :=
      refScan_t0row_pres _ _ pre m z hznotpre
    have hg2 : ∀ tid, (z ∈ M1 tid ↔ z ∈ m tid) := fun tid =>
      refScan_cell_pres _ _ pre m tid z hznotpre hzt0
    have hanyiff : ((t0 :: rest).any fun tid => decide (z ∉ M1 tid)) = true ↔
        ∃ tid ∈ t0 :: rest, z ∉ m tid := by
      rw [List.any_eq_true]
      constructor
      · rintro ⟨tid, htid, hdec⟩
        exact ⟨tid, htid, fun hmem =>
          (of_decide_eq_true hdec) ((hg2 tid).mpr hmem)⟩
      · rintro ⟨tid, htid, hnot⟩
        exact ⟨tid, htid, decide_eq_true
          (fun hmem => hnot ((hg2 tid).mp hmem))⟩
    by_cases hguard : z ∈ M1 t0
    · by_cases hcl : ∃ tid ∈ t0 :: rest, z ∉ m tid
      · have hm2 : refConflictStep (t0 :: rest) t0 M1 z
            = setBitFalse (setBitFalse M1 t0 z) z t0 := by
          rw [refConflictStep, if_pos hguard, if_pos (hanyiff.mpr hcl)]
        have hrow_t0 : z ∉ (setBitFalse (setBitFalse M1 t0 z) z t0) t0 := by
          rw [setBitFalse, Function.update_noteq (Ne.symm hzt0), setBitFalse,
            Function.update_same]
          exact Finset.not_mem_erase _ _
        have hrow_z : t0 ∉ (setBitFalse (setBitFalse M1 t0 z) z t0) z := by
          rw [setBitFalse, Function.update_same]
          exact Finset.not_mem_erase _ _
        constructor
        · rw [hm2, refScan_t0row_pres _ _ post _ z hznotpost]
          refine iff_of_false hrow_t0 (fun h => ?_)
          obtain ⟨tid, htid, hno⟩ := hcl
          exact hno (h.2 tid htid)
        · intro _
          rw [hm2]
          intro hmem
          exact hrow_z (foldl_apply_subset _
            (refConflictStep_apply_subset (t0 :: rest) t0) post _ z hmem)
      · have hm2 : refConflictStep (t0 :: rest) t0 M1 z = M1 := by
          rw [refConflictStep, if_pos hguard, if_neg]
          intro h
          exact hcl (hanyiff.mp h)
        rw [hm2, refScan_t0row_pres _ _ post _ z hznotpost]
        push_neg at hcl
        refine ⟨iff_of_true hguard ⟨hg1.mp hguard, hcl⟩, fun h => ?_⟩
        exact absurd hguard h.2
    · have hm2 : refConflictStep (t0 :: rest) t0 M1 z = M1 := by
        rw [refConflictStep, if_neg hguard]
      rw [hm2, refScan_t0row_pres _ _ post _ z hznotpost]
      refine ⟨iff_of_false hguard (fun h => hguard (hg1.mpr h.1)), fun h => ?_⟩
      exact absurd (hg1.mpr h.1) hguard

theorem updateRefTensorsConflict_append_front (l1 l2 : List (List ℕ))
    (tensorIds : List ℕ) (contig : ℕ → Bool)
    (st : (ℕ → Finset ℕ) × (ℕ → ℕ)) :
    updateRefTensorsConflict (l1 ++ l2) tensorIds contig st
      = updateRefTensorsConflict l2 tensorIds contig
          (updateRefTensorsConflict l1 tensorIds contig st) := by
  induction l1 generalizing st with
  | nil => rfl
  | cons g r ih =>
    rcases g with - | ⟨a, b⟩
    · exact ih st
    · exact ih _

/-- The matrix component of `UpdateRefTensorsConflict` only ever clears
bits. -/
theorem updateRefConflict_matrix_subset (refLists : List (List ℕ))
    (tensorIds : List ℕ) (contig : ℕ → Bool)
    (st : (ℕ → Finset ℕ) × (ℕ → ℕ)) (i : ℕ) :
    (updateRefTensorsConflict refLists tensorIds contig st).1 i ⊆ st.1 i := by
  induction refLists generalizing st with
  | nil => exact Finset.Subset.refl _
  | cons g rest ih =>
    rcases g with - | ⟨a, b⟩
    · exact ih st
    · have hstep : updateRefTensorsConflict ((a :: b) :: rest) tensorIds
          contig st
          = updateRefTensorsConflict rest tensorIds contig
              (refGroupMatrixLoop tensorIds (a :: b) a st.1,
               refGroupSizeLoop contig b st.2) := rfl
      rw [hstep]
      exact (ih _).trans
        (foldl_apply_subset _ (refConflictStep_apply_subset (a :: b) a)
          tensorIds st.1 i)

/-- C6 (amended): when a ref-node group is processed by
`UpdateRefTensorsConflict`, its intersection acts on the matrix as it stands
at that moment: with Mb the matrix after the preceding groups and Ma the
matrix just after this group, the first member is marked reusable in Ma with
a registry tensor z iff z is in its row and in every member's row of Mb;
whenever the intersection clears a first-member bit, the mirrored bit in z's
row is cleared too; and the remaining groups only ever clear bits, so the
final matrix is contained row by row in Ma (for a single group, Mb is the
pre-preprocessing matrix). -/
theorem ref_conflict_intersection_amended (pre post : List (List ℕ))
    (tensorIds : List ℕ) (t0 : ℕ) (rest : List ℕ) (contig : ℕ → Bool)
    (m : ℕ → Finset ℕ) (sz : ℕ → ℕ)
    (hnodup : tensorIds.Nodup) (hdiag : t0 ∉ m t0)
    (z : ℕ) (hz : z ∈ tensorIds) :
    (z ∈ (updateRefTensorsConflict (pre ++ [t0 :: rest]) tensorIds contig
        (m, sz)).1 t0 ↔
      (z ∈ (updateRefTensorsConflict pre tensorIds contig (m, sz)).1 t0 ∧
        ∀ tid ∈ t0 :: rest,
          z ∈ (updateRefTensorsConflict pre tensorIds contig
            (m, sz)).1 tid)) ∧
    ((z ∈ (updateRefTensorsConflict pre tensorIds contig (m, sz)).1 t0 ∧
        z ∉ (updateRefTensorsConflict (pre ++ [t0 :: rest]) tensorIds contig
          (m, sz)).1 t0) →
      t0 ∉ (updateRefTensorsConflict (pre ++ [t0 :: rest]) tensorIds contig
        (m, sz)).1 z) ∧
    (∀ i, (updateRefTensorsConflict (pre ++ (t0 :: rest) :: post) tensorIds
        contig (m, sz)).1 i
      ⊆ (updateRefTensorsConflict (pre ++ [t0 :: rest]) tensorIds contig
        (m, sz)).1 i) := by
  have hMb_diag : t0 ∉ (updateRefTensorsConflict pre tensorIds contig
      (m, sz)).1 t0 := fun h =>
    hdiag (updateRefConflict_matrix_subset pre tensorIds contig (m, sz) t0 h)
  have hMa : (updateRefTensorsConflict (pre ++ [t0 :: rest]) tensorIds contig
      (m, sz)).1
      = List.foldl (refConflictStep (t0 :: rest) t0)
          (updateRefTensorsConflict pre tensorIds contig (m, sz)).1
          tensorIds := by
    rw [updateRefTensorsConflict_append_front]
    rfl
  obtain ⟨h1, h2⟩ := refGroupScan_char tensorIds t0 rest
    (updateRefTensorsConflict pre tensorIds contig (m, sz)).1 hnodup
    hMb_diag z hz
  refine ⟨by rw [hMa]; exact h1, by rw [hMa]; exact h2, ?_⟩
  intro i
  have hsplit : pre ++ (t0 :: rest) :: post = (pre ++ [t0 :: rest]) ++ post := by
    simp
  rw [hsplit, updateRefTensorsConflict_append_front]
  exact updateRefConflict_matrix_subset post tensorIds contig _ i

/-- Input matrix for the C6 witness: rows 0 and 1 both contain column 2. -/
def refAmendM : ℕ → Finset ℕ
  | 0 => {2}
  | 1 => {2}
  | _ => ∅

theorem ref_conflict_intersection_amended_witness :
    (([0, 1, 2, 3, 4, 5, 6] : List ℕ).Nodup ∧ 0 ∉ refAmendM 0 ∧
      (2 : ℕ) ∈ [0, 1, 2, 3, 4, 5, 6]) ∧
    ((2 ∈ (updateRefTensorsConflict ([[3, 4]] ++ [[0, 1]])
          [0, 1, 2, 3, 4, 5, 6] (fun _ => false)
          (refAmendM, fun _ => 100)).1 0 ↔
        (2 ∈ (updateRefTensorsConflict [[3, 4]] [0, 1, 2, 3, 4, 5, 6]
            (fun _ => false) (refAmendM, fun _ => 100)).1 0 ∧
          ∀ tid ∈ [0, 1],
            2 ∈ (updateRefTensorsConflict [[3, 4]] [0, 1, 2, 3, 4, 5, 6]
              (fun _ => false) (refAmendM, fun _ => 100)).1 tid)) ∧
      ((2 ∈ (updateRefTensorsConflict [[3, 4]] [0, 1, 2, 3, 4, 5, 6]
            (fun _ => false) (refAmendM, fun _ => 100)).1 0 ∧
          2 ∉ (updateRefTensorsConflict ([[3, 4]] ++ [[0, 1]])
            [0, 1, 2, 3, 4, 5, 6] (fun _ => false)
            (refAmendM, fun _ => 100)).1 0) →
        0 ∉ (updateRefTensorsConflict ([[3, 4]] ++ [[0, 1]])
          [0, 1, 2, 3, 4, 5, 6] (fun _ => false)
          (refAmendM, fun _ => 100)).1 2) ∧
      (∀ i, (updateRefTensorsConflict ([[3, 4]] ++ [0, 1] :: [[5, 6]])
          [0, 1, 2, 3, 4, 5, 6] (fun _ => false)
          (refAmendM, fun _ => 100)).1 i
        ⊆ (updateRefTensorsConflict ([[3, 4]] ++ [[0, 1]])
          [0, 1, 2, 3, 4, 5, 6] (fun _ => false)
          (refAmendM, fun _ => 100)).1 i)) :=
  ⟨⟨by decide, by decide, by decide⟩,
    ref_conflict_intersection_amended [[3, 4]] [[5, 6]] [0, 1, 2, 3, 4, 5, 6]
      0 [1] (fun _ => false) refAmendM (fun _ => 100) (by decide) (by decide)
      2 (by decide)⟩

/-!
## Offset propagation (`Somas::UpdateRefTensorsOffset`,
`Somas::UpdateContiguousTensorsOffset`)
-/

/-- `Somas::UpdateRefTensorsOffset`: every non-first member of each ref-node
constraint group receives the first member's (current) offset.  The C++
indexes `ref_node_list[0]`; groups are built non-empty, the empty group is
skipped. -/
def updateRefTensorsOffset (refLists : List (List ℕ)) (off : ℕ → ℕ) :
    ℕ → ℕ :=
  refLists.foldl
    (fun off g =>
      match g with
      | [] => off
      | t0 :: rest =>
        rest.foldl (fun o tid => Function.update o tid (o t0)) off)
    off

/-- First phase of `Somas::UpdateContiguousTensorsOffset`: for each pair of
contiguous-list indices related by a ref node, copy offsets per position from
the first list onto the second. -/
def contiguousRefCopy (contigLists : List (List ℕ))
    (refPairs : List (ℕ × ℕ)) (off : ℕ → ℕ) : ℕ → ℕ :=
  refPairs.foldl
    (fun o p =>
      (List.range (contigLists.getD p.2 []).length).foldl
        (fun o x =>
          Function.update o ((contigLists.getD p.2 []).getD x 0)
            (o ((contigLists.getD p.1 []).getD x 0)))
        o)
    off

/-- Second phase of `Somas::UpdateContiguousTensorsOffset`: the first tensor
of every contiguous list has its offset increased by the gap.  The C++
indexes `list[0]`; contiguous lists are built non-empty, the empty list is
skipped. -/
def contiguousGapBump (contigLists : List (List ℕ)) (off : ℕ → ℕ) :
    ℕ → ℕ :=
  contigLists.foldl
    (fun o l =>
      match l with
      | [] => o
      | h :: _ => Function.update o h (o h + kGapSize))
    off

/-- `Somas::UpdateContiguousTensorsOffset`. -/
def updateContiguousTensorsOffset (contigLists : List (List ℕ))
    (refPairs : List (ℕ × ℕ)) (off : ℕ → ℕ) : ℕ → ℕ :=
  contiguousGapBump contigLists (contiguousRefCopy contigLists refPairs off)

theorem refOffInner_not_mem (rest : List ℕ) (t0 : ℕ) (o : ℕ → ℕ) (x : ℕ)
    (hx : x ∉ rest) :
    rest.foldl (fun o tid => Function.update o tid (o t0)) o x = o x := by
  induction rest generalizing o with
  | nil => rfl
  | cons a rest ih =>
    rw [List.foldl_cons, ih _ (fun h => hx (List.mem_cons_of_mem a h)),
      Function.update_noteq
        (fun h => hx (by rw [h]; exact List.mem_cons_self a rest))]

theorem refOffInner_vals (rest : List ℕ) (t0 : ℕ) (o : ℕ → ℕ) :
    (rest.foldl (fun o tid => Function.update o tid (o t0)) o) t0 = o t0 ∧
    ∀ tid ∈ rest,
      (rest.foldl (fun o tid => Function.update o tid (o t0)) o) tid = o t0 := by
  induction rest generalizing o with
  | nil => exact ⟨rfl, by simp⟩
  | cons a rest ih =>
    have hupd : Function.update o a (o t0) t0 = o t0 := by
      rcases eq_or_ne t0 a with rfl | hta
      · exact Function.update_same _ _ _
      · exact Function.update_noteq hta _ _
    obtain ⟨ih1, ih2⟩ := ih (Function.update o a (o t0))
    rw [List.foldl_cons]
    refine ⟨by rw [ih1, hupd], ?_⟩
    intro tid htid
    rcases List.mem_cons.mp htid with rfl | htid
    · by_cases hmem : tid ∈ rest
      · rw [ih2 tid hmem, hupd]
      · rw [refOffInner_not_mem rest t0 _ tid hmem, Function.update_same]
    · rw [ih2 tid htid, hupd]

theorem updateRefTensorsOffset_pres (lists : List (List ℕ)) (o : ℕ → ℕ)
    (x : ℕ) (hx : ∀ g ∈ lists, x ∉ g) :
    updateRefTensorsOffset lists o x = o x := by
  induction lists generalizing o with
  | nil => rfl
  | cons g rest ih =>
    rcases g with - | ⟨t0, r⟩
    · have hstep : updateRefTensorsOffset ([] :: rest) o
          = updateRefTensorsOffset rest o := rfl
      rw [hstep, ih _ (fun g' hg' => hx g' (List.mem_cons_of_mem _ hg'))]
    · have hstep : updateRefTensorsOffset ((t0 :: r) :: rest) o
          = updateRefTensorsOffset rest
              (r.foldl (fun o tid => Function.update o tid (o t0)) o) := rfl
      rw [hstep, ih _ (fun g' hg' => hx g' (List.mem_cons_of_mem _ hg'))]
      exact refOffInner_not_mem r t0 o x
        (fun h => hx (t0 :: r) (List.mem_cons_self _ rest)
          (List.mem_cons_of_mem t0 h))

theorem copyInner_pres (l1 l2 : List ℕ) (idx : List ℕ) (o : ℕ → ℕ) (x : ℕ)
    (hx : x ∉ l2) (hidx : ∀ i ∈ idx, i < l2.length) :
    idx.foldl
      (fun o x0 => Function.update o (l2.getD x0 0) (o (l1.getD x0 0))) o x
      = o x := by
  induction idx generalizing o with
  | nil => rfl
  | cons i rest ih =>
    rw [List.foldl_cons, ih _ (fun j hj => hidx j (List.mem_cons_of_mem i hj))]
    have hi : i < l2.length := hidx i (List.mem_cons_self i rest)
    have hmem : l2.getD i 0 ∈ l2 := by
      rw [List.getD_eq_getElem l2 0 hi]
      exact List.getElem_mem hi
    exact Function.update_noteq
      (fun h => hx (by rw [h]; exact hmem)) _ _

theorem contiguousRefCopy_pres (contigLists : List (List ℕ))
    (refPairs : List (ℕ × ℕ)) (o : ℕ → ℕ) (x : ℕ)
    (hx : ∀ l ∈ contigLists, x ∉ l)
    (hp : ∀ p ∈ refPairs, p.2 < contigLists.length) :
    contiguousRefCopy contigLists refPairs o x = o x := by
  induction refPairs generalizing o with
  | nil => rfl
  | cons p rest ih =>
    have hstep : contiguousRefCopy contigLists (p :: rest) o
        = contiguousRefCopy contigLists rest
            ((List.range (contigLists.getD p.2 []).length).foldl
              (fun o x0 =>
                Function.update o ((contigLists.getD p.2 []).getD x0 0)
                  (o ((contigLists.getD p.1 []).getD x0 0)))
              o) := rfl
    rw [hstep, ih _ (fun q hq => hp q (List.mem_cons_of_mem p hq))]
    have hl2 : contigLists.getD p.2 [] ∈ contigLists := by
      rw [List.getD_eq_getElem contigLists []
        (hp p (List.mem_cons_self p rest))]
      exact List.getElem_mem _
    exact copyInner_pres _ _ _ o x (hx _ hl2) (fun i hi => List.mem_range.mp hi)

theorem contiguousGapBump_pres (contigLists : List (List ℕ)) (o : ℕ → ℕ)
    (x : ℕ) (hx : ∀ l ∈ contigLists, x ∉ l) :
    contiguousGapBump contigLists o x = o x := by
  induction contigLists generalizing o with
  | nil => rfl
  | cons l rest ih =>
    rcases l with - | ⟨h, tl⟩
    · have hstep : contiguousGapBump ([] :: rest) o
          = contiguousGapBump rest o := rfl
      rw [hstep, ih _ (fun l' hl' => hx l' (List.mem_cons_of_mem _ hl'))]
    · have hstep : contiguousGapBump ((h :: tl) :: rest) o
          = contiguousGapBump rest (Function.update o h (o h + kGapSize)) :=
        rfl
      rw [hstep, ih _ (fun l' hl' => hx l' (List.mem_cons_of_mem _ hl'))]
      exact Function.update_noteq
        (fun he => hx (h :: tl) (List.mem_cons_self _ rest)
          (by rw [he]; exact List.mem_cons_self h tl)) _ _

theorem refGroupSizeLoop_zero (contig : ℕ → Bool) (r : List ℕ) (s : ℕ → ℕ)
    (tid : ℕ) (hs : s tid = 0) : refGroupSizeLoop contig r s tid = 0 := by
  induction r generalizing s with
  | nil => exact hs
  | cons a rest ih =>
    have hstep : refGroupSizeLoop contig (a :: rest) s
        = refGroupSizeLoop contig rest
            (if contig a then s else Function.update s a 0) := rfl
    rw [hstep]
    refine ih _ ?_
    split
    · exact hs
    · rcases eq_or_ne tid a with rfl | hne
      · exact Function.update_same _ _ _
      · rw [Function.update_noteq hne]
        exact hs

theorem refGroupSizeLoop_sets (contig : ℕ → Bool) (r : List ℕ) (s : ℕ → ℕ)
    (tid : ℕ) (htid : tid ∈ r) (hc : contig tid = false) :
    refGroupSizeLoop contig r s tid = 0 := by
  induction r generalizing s with
  | nil => exact absurd htid (List.not_mem_nil tid)
  | cons a rest ih =>
    have hstep : refGroupSizeLoop contig (a :: rest) s
        = refGroupSizeLoop contig rest
            (if contig a then s else Function.update s a 0) := rfl
    rw [hstep]
    rcases List.mem_cons.mp htid with rfl | htid
    · refine refGroupSizeLoop_zero _ _ _ _ ?_
      rw [if_neg (by rw [hc]; exact Bool.false_ne_true)]
      exact Function.update_same _ _ _
    · exact ih _ htid

theorem updateRefConflict_size_zero_pres (refLists : List (List ℕ))
    (tensorIds : List ℕ) (contig : ℕ → Bool) (st : (ℕ → Finset ℕ) × (ℕ → ℕ))
    (tid : ℕ) (hs : st.2 tid = 0) :
    (updateRefTensorsConflict refLists tensorIds contig st).2 tid = 0 := by
  induction refLists generalizing st with
  | nil => exact hs
  | cons g rest ih =>
    rcases g with - | ⟨t0, r⟩
    · exact ih st hs
    · have hstep : updateRefTensorsConflict ((t0 :: r) :: rest) tensorIds
          contig st
          = updateRefTensorsConflict rest tensorIds contig
              (refGroupMatrixLoop tensorIds (t0 :: r) t0 st.1,
               refGroupSizeLoop contig r st.2) := rfl
      rw [hstep]
      exact ih _ (refGroupSizeLoop_zero contig r st.2 tid hs)

/-- Post-solver offsets for the contiguous-ref exhibit of the C2
counterexample: tensors 0, 1, 2, 3 at 100, 400, 200, 300. -/
def offCexB : ℕ → ℕ
  | 0 => 100
  | 1 => 400
  | 2 => 200
  | 3 => 300
  | _ => 0

/-- Post-solver offsets for the overlapping-groups exhibit of the C2
counterexample. -/
def offCexC : ℕ → ℕ
  | 0 => 10
  | 1 => 20
  | 2 => 30
  | _ => 0

/-- C2 counterexample, three exhibits against the claim's two conjuncts.
(a) In the ref group [0, 1] whose second member is contiguous,
`UpdateRefTensorsConflict` leaves the non-first member's aligned size at 100
instead of 0 — the zeroing is guarded by
`!tensors_map_[ref_node_list[i]]->contiguous_`.
(b) For the ref group [0, 1] whose members sit at different positions of the
contiguous lists [0, 2] and [3, 1] (related by the ref map 0 ↦ 1), the
offset propagation of `UpdateContiguousTensorsOffset` overwrites the copied
ref offset: tensor 1 ends at 200 while first member 0 ends at 612.
(c) For the overlapping ref groups [0, 1] and [2, 1] (sharing tensor 1), the
second group's copy overwrites the first's: tensor 1 ends at 30 while its
first member 0 ends at 10.
So neither the universal size-zeroing nor the universal offset identity
holds as claimed. -/
theorem ref_group_size_offset_counterexample :
    ((updateRefTensorsConflict [[0, 1]] [0, 1] (fun n => decide (n = 1))
        ((fun _ => ∅), fun _ => 100)).2 1 = 100 ∧
      ((updateRefTensorsConflict [[0, 1]] [0, 1] (fun n => decide (n = 1))
        ((fun _ => ∅), fun _ => 100)).2 1 = 0 → False)) ∧
    (updateContiguousTensorsOffset [[0, 2], [3, 1]] [(0, 1)]
        (updateRefTensorsOffset [[0, 1]] offCexB) 1 = 200 ∧
      updateContiguousTensorsOffset [[0, 2], [3, 1]] [(0, 1)]
        (updateRefTensorsOffset [[0, 1]] offCexB) 0 = 612) ∧
    (updateContiguousTensorsOffset [] []
        (updateRefTensorsOffset [[0, 1], [2, 1]] offCexC) 1 = 30 ∧
      updateContiguousTensorsOffset [] []
        (updateRefTensorsOffset [[0, 1], [2, 1]] offCexC) 0 = 10) := by
  decide

theorem updateRefTensorsConflict_append (l1 l2 : List (List ℕ))
    (tensorIds : List ℕ) (contig : ℕ → Bool)
    (st : (ℕ → Finset ℕ) × (ℕ → ℕ)) :
    updateRefTensorsConflict (l1 ++ l2) tensorIds contig st
      = updateRefTensorsConflict l2 tensorIds contig
          (updateRefTensorsConflict l1 tensorIds contig st) := by
  induction l1 generalizing st with
  | nil => rfl
  | cons g r ih =>
    rcases g with - | ⟨a, b⟩
    · exact ih st
    · exact ih _

theorem updateRefTensorsOffset_append (l1 l2 : List (List ℕ))
    (off : ℕ → ℕ) :
    updateRefTensorsOffset (l1 ++ l2) off
      = updateRefTensorsOffset l2 (updateRefTensorsOffset l1 off) := by
  induction l1 generalizing off with
  | nil => rfl
  | cons g r ih =>
    rcases g with - | ⟨a, b⟩
    · exact ih off
    · exact ih _

/-- C2 (amended): after `UpdateRefTensorsConflict`, in every ref-node group
every non-first member that is NOT contiguous has its aligned size forced to
0 (contiguous members keep their size); and the final-offset identity (every
member equals the first member) holds for a ref-node group that shares no
tensor with any other ref group and none with any contiguous list. -/
theorem ref_group_offsets_and_sizes_amended (refLists : List (List ℕ))
    (tensorIds : List ℕ) (contig : ℕ → Bool) (m : ℕ → Finset ℕ)
    (sz : ℕ → ℕ) (off : ℕ → ℕ) (contigLists : List (List ℕ))
    (refPairs : List (ℕ × ℕ)) (t0 : ℕ) (rest : List ℕ)
    (hmem : (t0 :: rest) ∈ refLists) :
    (∀ tid ∈ rest, contig tid = false →
      (updateRefTensorsConflict refLists tensorIds contig (m, sz)).2 tid
        = 0) ∧
    ((refLists.Pairwise fun a b => ∀ x ∈ a, x ∉ b) →
      (∀ l ∈ contigLists, ∀ x ∈ t0 :: rest, x ∉ l) →
      (∀ p ∈ refPairs, p.2 < contigLists.length) →
      ∀ tid ∈ t0 :: rest,
        updateContiguousTensorsOffset contigLists refPairs
            (updateRefTensorsOffset refLists off) tid
          = updateContiguousTensorsOffset contigLists refPairs
            (updateRefTensorsOffset refLists off) t0) := by
  obtain ⟨pre, post, heq⟩ := List.append_of_mem hmem
  subst heq
  constructor
  · intro tid htid hc
    rw [updateRefTensorsConflict_append]
    have hstep : updateRefTensorsConflict ((t0 :: rest) :: post) tensorIds
        contig (updateRefTensorsConflict pre tensorIds contig (m, sz))
        = updateRefTensorsConflict post tensorIds contig
            (refGroupMatrixLoop tensorIds (t0 :: rest) t0
              (updateRefTensorsConflict pre tensorIds contig (m, sz)).1,
             refGroupSizeLoop contig rest
              (updateRefTensorsConflict pre tensorIds contig (m, sz)).2) :=
      rfl
    rw [hstep]
    exact updateRefConflict_size_zero_pres post tensorIds contig _ tid
      (refGroupSizeLoop_sets contig rest _ tid htid hc)
  · intro hdisj hnocontig hpairs
    rw [List.pairwise_append, List.pairwise_cons] at hdisj
    obtain ⟨-, ⟨hgpost, -⟩, -⟩ := hdisj
    have hco : ∀ x ∈ t0 :: rest,
        updateRefTensorsOffset (pre ++ (t0 :: rest) :: post) off x
          = updateRefTensorsOffset pre off t0 := by
      intro x hx
      rw [updateRefTensorsOffset_append]
      have hstep : updateRefTensorsOffset ((t0 :: rest) :: post)
          (updateRefTensorsOffset pre off)
          = updateRefTensorsOffset post
              (rest.foldl (fun o tid => Function.update o tid (o t0))
                (updateRefTensorsOffset pre off)) := rfl
      rw [hstep,
        updateRefTensorsOffset_pres post _ x
          (fun g2 hg2 => hgpost g2 hg2 x hx)]
      obtain ⟨hv0, hvr⟩ :=
        refOffInner_vals rest t0 (updateRefTensorsOffset pre off)
      rcases List.mem_cons.mp hx with rfl | hx2
      · exact hv0
      · exact hvr x hx2
    have hfin : ∀ x ∈ t0 :: rest,
        updateContiguousTensorsOffset contigLists refPairs
          (updateRefTensorsOffset (pre ++ (t0 :: rest) :: post) off) x
          = updateRefTensorsOffset pre off t0 := by
      intro x hx
      have hnl : ∀ l ∈ contigLists, x ∉ l := fun l hl => hnocontig l hl x hx
      have hu : updateContiguousTensorsOffset contigLists refPairs
          (updateRefTensorsOffset (pre ++ (t0 :: rest) :: post) off)
          = contiguousGapBump contigLists
              (contiguousRefCopy contigLists refPairs
                (updateRefTensorsOffset (pre ++ (t0 :: rest) :: post) off)) :=
        rfl
      rw [hu, contiguousGapBump_pres _ _ x hnl,
        contiguousRefCopy_pres _ _ _ x hnl hpairs, hco x hx]
    intro tid htid
    rw [hfin tid htid, hfin t0 (List.mem_cons_self t0 rest)]

theorem ref_group_offsets_and_sizes_amended_witness :
    ((([0, 1] : List ℕ) ∈ [[0, 1]])) ∧
    ((∀ tid ∈ [1], (fun _ => false) tid = false →
        (updateRefTensorsConflict [[0, 1]] [0, 1] (fun _ => false)
          ((fun _ => ∅), fun _ => 100)).2 tid = 0) ∧
      (([[0, 1]] : List (List ℕ)).Pairwise (fun a b => ∀ x ∈ a, x ∉ b) →
        (∀ l ∈ ([] : List (List ℕ)), ∀ x ∈ [0, 1], x ∉ l) →
        (∀ p ∈ ([] : List (ℕ × ℕ)),
          p.2 < ([] : List (List ℕ)).length) →
        ∀ tid ∈ [0, 1],
          updateContiguousTensorsOffset [] []
              (updateRefTensorsOffset [[0, 1]] (fun n => 7 * n)) tid
            = updateContiguousTensorsOffset [] []
              (updateRefTensorsOffset [[0, 1]] (fun n => 7 * n)) 0)) :=
  ⟨by decide,
    ref_group_offsets_and_sizes_amended [[0, 1]] [0, 1] (fun _ => false)
      (fun _ => ∅) (fun _ => 100) (fun n => 7 * n) [] [] 0 [1] (by decide)⟩

/-!
## Contiguous lists for communication nodes (`Somas::GenContiguousList`)
-/

inductive SomasNodeType where
  | kCommonNode
  | kCommunicationNode
deriving DecidableEq, Repr

/-- Node fields consulted by `GenContiguousList`: the type and the tensor ids
of `input_tensors_` / `output_tensors_`. -/
structure SomasNodeG where
  nodeType : SomasNodeType
  inputTensors : List ℕ
  outputTensors : List ℕ
deriving DecidableEq, Repr

/-- Mutable state touched by `GenContiguousList`. -/
structure ContigState where
  alignedSize : ℕ → ℕ
  contiguous : ℕ → Bool
  contiguousTensorsList : List (List ℕ)
  commInputTotalSize : ℕ
  commOutputTotalSize : ℕ

/-- `tensor->aligned_size_ += kGapSize` guarded by `aligned_size_ != 0`. -/
def gapBumpIfNonzero (sz : ℕ → ℕ) (tid : ℕ) : ℕ → ℕ :=
  if sz tid ≠ 0 then Function.update sz tid (sz tid + kGapSize) else sz

/-- Result of processing one side (inputs or outputs) of a communication
node. -/
structure SideResult where
  alignedSize : ℕ → ℕ
  contiguous : ℕ → Bool
  total : ℕ
  newList : Option (List ℕ)

def kSameInputError : String :=
  "has same input tensors, please double check node input tensors."

def kSameOutputError : String :=
  "has same output tensor, please double check node output tensors."

/-- One side of `Somas::GenContiguousList`'s per-node body: skip if the list
is empty or its first tensor is already contiguous; otherwise add the gap to
the first and to the last tensor's aligned size (each only when non-zero,
and sequentially, as in the source), accumulate the (post-gap) sizes into the
communication total, mark every member contiguous, and record the id list —
unless the ids contain a duplicate, which raises the fatal exception.  (The
C++ raises after mutating sizes/flags; the exception aborts the compile, so
the mutated state is never observed and the early error is equivalent.) -/
def genContiguousSide (ids : List ℕ) (sz : ℕ → ℕ) (contig : ℕ → Bool)
    (total : ℕ) (err : String) : Except String SideResult :=
  match ids with
  | [] => Except.ok ⟨sz, contig, total, none⟩
  | h :: tl =>
    if contig h then Except.ok ⟨sz, contig, total, none⟩
    else if (h :: tl).Nodup then
      Except.ok
        ⟨gapBumpIfNonzero (gapBumpIfNonzero sz h)
            ((h :: tl).getLast (List.cons_ne_nil h tl)),
          (h :: tl).foldl (fun c tid => Function.update c tid true) contig,
          total + ((h :: tl).map (gapBumpIfNonzero (gapBumpIfNonzero sz h)
            ((h :: tl).getLast (List.cons_ne_nil h tl)))).sum,
          some (h :: tl)⟩
    else Except.error err

/-- Per-node body of `Somas::GenContiguousList`: non-communication nodes are
skipped; otherwise the input side and then the output side are processed. -/
def genContiguousNode (node : SomasNodeG) (st : ContigState) :
    Except String ContigState :=
  if node.nodeType ≠ SomasNodeType.kCommunicationNode then Except.ok st
  else
    match genContiguousSide node.inputTensors st.alignedSize st.contiguous
      st.commInputTotalSize kSameInputError with
    | Except.error e => Except.error e
    | Except.ok r1 =>
      match genContiguousSide node.outputTensors r1.alignedSize r1.contiguous
        st.commOutputTotalSize kSameOutputError with
      | Except.error e => Except.error e
      | Except.ok r2 =>
        Except.ok ⟨r2.alignedSize, r2.contiguous,
          st.contiguousTensorsList ++ r1.newList.toList ++ r2.newList.toList,
          r1.total, r2.total⟩

/-- `Somas::GenContiguousList` over the node list; the exception aborts the
whole construction. -/
def genContiguousList (nodes : List SomasNodeG) (st : ContigState) :
    Except String ContigState :=
  match nodes with
  | [] => Except.ok st
  | n :: rest =>
    match genContiguousNode n st with
    | Except.error e => Except.error e
    | Except.ok st2 => genContiguousList rest st2

/-- The claim says a duplicated tensor id in a communication node's list
always aborts the compile; but `Somas::GenContiguousList` skips a list whose
first tensor is already contiguous before the duplicate check, so this node
with inputs `[4, 6, 4]` passes silently when tensor 4 is contiguous. -/
def nodeC10 : SomasNodeG :=
  ⟨SomasNodeType.kCommunicationNode, [4, 6, 4], [9]⟩

/-- State in which tensor 4 is already marked contiguous. -/
def stC10skip : ContigState :=
  ⟨fun _ => 64, fun t => decide (t = 4), [], 0, 0⟩

/-- C10 counterexample: `nodeC10`'s input list `[4, 6, 4]` holds tensor 4
twice, yet `GenContiguousList` succeeds (no fatal exception) because the
already-contiguous head makes it skip the list before the duplicate check. -/
theorem contiguous_duplicate_skip_counterexample :
    nodeC10.nodeType = SomasNodeType.kCommunicationNode ∧
    ¬nodeC10.inputTensors.Nodup ∧
    (genContiguousList [nodeC10] stC10skip).toOption.isSome = true :=
  ⟨by decide, by decide, rfl⟩

/-- C10 (amended): when a communication node's side list is actually
processed — its head tensor is not already contiguous at that point — a
duplicated tensor id in it makes `GenContiguousList` abort with the fatal
duplicate exception for that side (inputs checked first, then outputs on the
state left by the input side). -/
theorem contiguous_duplicate_fatal_amended (node : SomasNodeG)
    (st : ContigState)
    (htype : node.nodeType = SomasNodeType.kCommunicationNode) :
    (∀ h0 tl, node.inputTensors = h0 :: tl → st.contiguous h0 = false →
        ¬(h0 :: tl).Nodup →
        genContiguousList [node] st = Except.error kSameInputError) ∧
    (∀ r1 h0 tl,
        genContiguousSide node.inputTensors st.alignedSize st.contiguous
          st.commInputTotalSize kSameInputError = Except.ok r1 →
        node.outputTensors = h0 :: tl → r1.contiguous h0 = false →
        ¬(h0 :: tl).Nodup →
        genContiguousList [node] st = Except.error kSameOutputError) := by
  constructor
  · intro h0 tl hin hnc hdup
    have hside : genContiguousSide (h0 :: tl) st.alignedSize st.contiguous
        st.commInputTotalSize kSameInputError
          = Except.error kSameInputError := by
      rw [genContiguousSide, if_neg (by rw [hnc]; exact Bool.false_ne_true),
        if_neg hdup]
    have hnode : genContiguousNode node st = Except.error kSameInputError := by
      rw [genContiguousNode, if_neg (by rw [htype]; simp), hin, hside]
    rw [genContiguousList, hnode]
  · intro r1 h0 tl hr1 hout hnc hdup
    have hside2 : genContiguousSide (h0 :: tl) r1.alignedSize r1.contiguous
        st.commOutputTotalSize kSameOutputError
          = Except.error kSameOutputError := by
      rw [genContiguousSide, if_neg (by rw [hnc]; exact Bool.false_ne_true),
        if_neg hdup]
    have hnode : genContiguousNode node st
        = Except.error kSameOutputError := by
      rw [genContiguousNode, if_neg (by rw [htype]; simp), hr1]
      dsimp only
      rw [hout, hside2]
    rw [genContiguousList, hnode]

/-- Communication node with a duplicated output tensor id. -/
def nodeC10out : SomasNodeG :=
  ⟨SomasNodeType.kCommunicationNode, [9], [5, 5]⟩

/-- Initial state for the C10 witness. -/
def stC10 : ContigState :=
  ⟨fun _ => 64, fun _ => false, [], 0, 0⟩

/-- Input-side result of `nodeC10out` under `stC10`. -/
def r1C10 : SideResult :=
  (genContiguousSide nodeC10out.inputTensors stC10.alignedSize stC10.contiguous
    stC10.commInputTotalSize kSameInputError).toOption.getD
    ⟨stC10.alignedSize, stC10.contiguous, 0, none⟩

theorem contiguous_duplicate_fatal_amended_witness :
    ((⟨SomasNodeType.kCommunicationNode, [4, 6, 4], [9]⟩ :
        SomasNodeG).nodeType = SomasNodeType.kCommunicationNode ∧
      stC10.contiguous 4 = false ∧ ¬([4, 6, 4] : List ℕ).Nodup) ∧
    genContiguousList [⟨SomasNodeType.kCommunicationNode, [4, 6, 4], [9]⟩]
        stC10 = Except.error kSameInputError ∧
    (nodeC10out.nodeType = SomasNodeType.kCommunicationNode ∧
      genContiguousSide nodeC10out.inputTensors stC10.alignedSize
          stC10.contiguous stC10.commInputTotalSize kSameInputError
        = Except.ok r1C10 ∧
      r1C10.contiguous 5 = false ∧ ¬([5, 5] : List ℕ).Nodup) ∧
    genContiguousList [nodeC10out] stC10 = Except.error kSameOutputError :=
  ⟨⟨by decide, by decide, by decide⟩,
    (contiguous_duplicate_fatal_amended
        ⟨SomasNodeType.kCommunicationNode, [4, 6, 4], [9]⟩ stC10
        (by decide)).1 4 [6, 4] rfl (by decide) (by decide),
    ⟨by decide, rfl, by decide, by decide⟩,
    (contiguous_duplicate_fatal_amended nodeC10out stC10 (by decide)).2
      r1C10 5 [5] rfl rfl (by decide) (by decide)⟩

theorem gapBumpIfNonzero_apply (sz : ℕ → ℕ) (tid x : ℕ) :
    gapBumpIfNonzero sz tid x
      = if x = tid then sz tid + (if sz tid = 0 then 0 else kGapSize)
        else sz x := by
  rw [gapBumpIfNonzero]
  by_cases hz : sz tid ≠ 0
  · rw [if_pos hz, Function.update_apply]
    by_cases hx : x = tid
    · rw [if_pos hx, if_pos hx, if_neg hz]
    · rw [if_neg hx, if_neg hx]
  · rw [if_neg hz]
    push_neg at hz
    by_cases hx : x = tid
    · rw [if_pos hx, if_pos hz, hx, Nat.add_zero]
    · rw [if_neg hx]

/-- C7: for a communication node's processed tensor-id list, the gap is
added to the aligned sizes of exactly the first and the last tensor, and
only when the respective size is non-zero (a single-element list is both
first and last, so a non-zero size is bumped twice, as in
somas.cc:983-988); after solving, the first tensor of the contiguous list
has its offset increased by exactly the gap, so — when the solver has
placed the list consecutively by the (post-gap) aligned sizes, which only
arises for lists whose boundary tensors actually occupy solver memory
(non-zero aligned size) — the final offsets satisfy
offset[i+1] = offset[i] + size[i] with the original (pre-gap) sizes, the
gap acting only at the list boundary. -/
theorem contiguous_gap_boundaries (h0 : ℕ) (tl : List ℕ) (sz : ℕ → ℕ)
    (contig : ℕ → Bool) (total : ℕ) (err : String) (r : SideResult)
    (off : ℕ → ℕ)
    (hnc : contig h0 = false)
    (hnodup : (h0 :: tl).Nodup)
    (hres : genContiguousSide (h0 :: tl) sz contig total err
      = Except.ok r) :
    (tl = [] →
      r.alignedSize h0
        = sz h0 + (if sz h0 = 0 then 0 else 2 * kGapSize)) ∧
    ((h0 :: tl).getLast (List.cons_ne_nil h0 tl) ≠ h0 →
      r.alignedSize h0 = sz h0 + (if sz h0 = 0 then 0 else kGapSize) ∧
      r.alignedSize ((h0 :: tl).getLast (List.cons_ne_nil h0 tl))
        = sz ((h0 :: tl).getLast (List.cons_ne_nil h0 tl))
          + (if sz ((h0 :: tl).getLast (List.cons_ne_nil h0 tl)) = 0
             then 0 else kGapSize) ∧
      ∀ x ∈ h0 :: tl, x ≠ h0 →
        x ≠ (h0 :: tl).getLast (List.cons_ne_nil h0 tl) →
        r.alignedSize x = sz x) ∧
    (contiguousGapBump [h0 :: tl] off h0 = off h0 + kGapSize) ∧
    ((h0 :: tl).getLast (List.cons_ne_nil h0 tl) ≠ h0 → sz h0 ≠ 0 →
      sz ((h0 :: tl).getLast (List.cons_ne_nil h0 tl)) ≠ 0 →
      (∀ i, i + 1 < (h0 :: tl).length →
        off ((h0 :: tl).getD (i + 1) 0)
          = off ((h0 :: tl).getD i 0)
            + r.alignedSize ((h0 :: tl).getD i 0)) →
      ∀ i, i + 1 < (h0 :: tl).length →
        contiguousGapBump [h0 :: tl] off ((h0 :: tl).getD (i + 1) 0)
          = contiguousGapBump [h0 :: tl] off ((h0 :: tl).getD i 0)
            + sz ((h0 :: tl).getD i 0)) := by
  rw [genContiguousSide, if_neg (by rw [hnc]; exact Bool.false_ne_true),
    if_pos hnodup] at hres
  simp only [Except.ok.injEq] at hres
  subst hres
  dsimp only
  have hbump : ∀ x, contiguousGapBump [h0 :: tl] off x
      = if x = h0 then off h0 + kGapSize else off x := by
    intro x
    have hcb : contiguousGapBump [h0 :: tl] off
        = Function.update off h0 (off h0 + kGapSize) := rfl
    rw [hcb, Function.update_apply]
  refine ⟨?_, ?_, by rw [hbump, if_pos rfl], ?_⟩
  · intro htl
    subst htl
    have hL : ([h0] : List ℕ).getLast (List.cons_ne_nil h0 []) = h0 := rfl
    rw [hL, gapBumpIfNonzero_apply, if_pos rfl, gapBumpIfNonzero_apply,
      if_pos rfl]
    by_cases hz : sz h0 = 0
    · rw [if_pos hz, if_pos hz, Nat.add_zero, if_pos hz, Nat.add_zero]
    · rw [if_neg hz, if_neg hz, if_neg (by simp [kGapSize])]
      omega
  · intro hL
    refine ⟨?_, ?_, ?_⟩
    · rw [gapBumpIfNonzero_apply, if_neg (fun he => hL he.symm),
        gapBumpIfNonzero_apply, if_pos rfl]
    · rw [gapBumpIfNonzero_apply, if_pos rfl, gapBumpIfNonzero_apply,
        if_neg hL]
    · intro x _ hx0 hxL
      rw [gapBumpIfNonzero_apply, if_neg hxL, gapBumpIfNonzero_apply,
        if_neg hx0]
  · intro hL hh0 hl0 hsolver i hi
    have hsz_h0 : gapBumpIfNonzero (gapBumpIfNonzero sz h0)
        ((h0 :: tl).getLast (List.cons_ne_nil h0 tl)) h0
        = sz h0 + kGapSize := by
      rw [gapBumpIfNonzero_apply, if_neg (fun he => hL he.symm),
        gapBumpIfNonzero_apply, if_pos rfl, if_neg hh0]
    have hsz_mid : ∀ x, x ≠ h0 →
        x ≠ (h0 :: tl).getLast (List.cons_ne_nil h0 tl) →
        gapBumpIfNonzero (gapBumpIfNonzero sz h0)
          ((h0 :: tl).getLast (List.cons_ne_nil h0 tl)) x = sz x := by
      intro x hx0 hxL
      rw [gapBumpIfNonzero_apply, if_neg hxL, gapBumpIfNonzero_apply,
        if_neg hx0]
    have hne_idx : ∀ j k, j < (h0 :: tl).length → k < (h0 :: tl).length →
        j ≠ k → (h0 :: tl).getD j 0 ≠ (h0 :: tl).getD k 0 := by
      intro j k hj hk hjk he
      rw [List.getD_eq_getElem _ _ hj, List.getD_eq_getElem _ _ hk] at he
      exact hjk (hnodup.getElem_inj_iff.mp he)
    have hg0 : (h0 :: tl).getD 0 0 = h0 := rfl
    have hLidx : (h0 :: tl).getLast (List.cons_ne_nil h0 tl)
        = (h0 :: tl).getD ((h0 :: tl).length - 1) 0 := by
      rw [List.getD_eq_getElem _ _ (by simp)]
      exact List.getLast_eq_getElem _ _
    have hii : i < (h0 :: tl).length := Nat.lt_of_succ_lt hi
    have hnext_ne : (h0 :: tl).getD (i + 1) 0 ≠ h0 := by
      rw [← hg0]
      exact hne_idx (i + 1) 0 hi (by simp) (Nat.succ_ne_zero i)
    rcases Nat.eq_zero_or_pos i with rfl | hpos
    · rw [hbump, if_neg hnext_ne, hbump, hg0, if_pos rfl, hsolver 0 hi, hg0,
        hsz_h0]
      omega
    · have hcur_ne : (h0 :: tl).getD i 0 ≠ h0 := by
        rw [← hg0]
        exact hne_idx i 0 hii (by simp) (Nat.pos_iff_ne_zero.mp hpos)
      have hcur_ne_last : (h0 :: tl).getD i 0
          ≠ (h0 :: tl).getLast (List.cons_ne_nil h0 tl) := by
        rw [hLidx]
        exact hne_idx i ((h0 :: tl).length - 1) hii (by simp) (by omega)
      rw [hbump, if_neg hnext_ne, hbump, if_neg hcur_ne, hsolver i hi,
        hsz_mid _ hcur_ne hcur_ne_last]

/-- Aligned sizes of the spec scenario: tensors 10, 11, 12 with sizes
64, 128, 64. -/
def szC7 : ℕ → ℕ := fun n =>
  if n = 10 then 64 else if n = 11 then 128 else if n = 12 then 64 else 0

/-- The side result produced for the scenario list [10, 11, 12]. -/
def rC7 : SideResult :=
  (genContiguousSide [10, 11, 12] szC7 (fun _ => false) 0
    kSameInputError).toOption.getD ⟨szC7, fun _ => false, 0, none⟩

/-- Solver offsets placing the list consecutively by post-gap sizes
(region base 0): 0, 576, 704. -/
def offC7 : ℕ → ℕ := fun n =>
  if n = 10 then 0 else if n = 11 then 576 else if n = 12 then 704 else 0

theorem contiguous_gap_boundaries_witness :
    ((fun _ : ℕ => false) 10 = false ∧
      ([10, 11, 12] : List ℕ).Nodup ∧
      genContiguousSide [10, 11, 12] szC7 (fun _ => false) 0 kSameInputError
        = Except.ok rC7) ∧
    (([11, 12] = ([] : List ℕ) →
        rC7.alignedSize 10
          = szC7 10 + if szC7 10 = 0 then 0 else 2 * kGapSize) ∧
      (([10, 11, 12] : List ℕ).getLast (List.cons_ne_nil 10 [11, 12]) ≠ 10 →
        (rC7.alignedSize 10
            = szC7 10 + if szC7 10 = 0 then 0 else kGapSize) ∧
        (rC7.alignedSize
              (([10, 11, 12] : List ℕ).getLast (List.cons_ne_nil 10 [11, 12]))
            = szC7 (([10, 11, 12] : List ℕ).getLast
                (List.cons_ne_nil 10 [11, 12]))
              + if szC7 (([10, 11, 12] : List ℕ).getLast
                  (List.cons_ne_nil 10 [11, 12])) = 0 then 0
                else kGapSize) ∧
        ∀ x ∈ ([10, 11, 12] : List ℕ), x ≠ 10 →
          x ≠ ([10, 11, 12] : List ℕ).getLast (List.cons_ne_nil 10 [11, 12]) →
          rC7.alignedSize x = szC7 x) ∧
      contiguousGapBump [[10, 11, 12]] offC7 10 = offC7 10 + kGapSize ∧
      (([10, 11, 12] : List ℕ).getLast (List.cons_ne_nil 10 [11, 12]) ≠ 10 →
        szC7 10 ≠ 0 →
        szC7 (([10, 11, 12] : List ℕ).getLast (List.cons_ne_nil 10 [11, 12]))
          ≠ 0 →
        (∀ i, i + 1 < ([10, 11, 12] : List ℕ).length →
          offC7 (([10, 11, 12] : List ℕ).getD (i + 1) 0)
            = offC7 (([10, 11, 12] : List ℕ).getD i 0)
              + rC7.alignedSize (([10, 11, 12] : List ℕ).getD i 0)) →
        ∀ i, i + 1 < ([10, 11, 12] : List ℕ).length →
          contiguousGapBump [[10, 11, 12]] offC7
              (([10, 11, 12] : List ℕ).getD (i + 1) 0)
            = contiguousGapBump [[10, 11, 12]] offC7
                (([10, 11, 12] : List ℕ).getD i 0)
              + szC7 (([10, 11, 12] : List ℕ).getD i 0))) :=
  ⟨⟨by decide, by decide, rfl⟩,
    contiguous_gap_boundaries 10 [11, 12] szC7 (fun _ => false) 0
      kSameInputError rC7 offC7 (by decide) (by decide) rfl⟩

/-!
## Cached-layout verification and loading (`Somas::VerifySomasResult`,
`Somas::UpdateTensorsOffset`, `Somas::LoadSomasResult`, `Somas::Allocate`)
-/

/-- One entry of the `tensors` array in the cached-layout JSON (fields
written by `SaveSomasResult`). -/
structure SomasJsonTensor where
  tensorId : ℕ
  size : ℕ
  oriSize : ℕ
  lifelongValue : LifeLongType
  lifeStart : ℕ
  lifeEnd : ℕ
  offset : ℕ
deriving DecidableEq, Repr

/-- The cached-layout JSON document (the hash string is modelled as a
number). -/
structure SomasCacheJson where
  graphId : ℕ
  hashId : ℕ
  memOffset : ℕ
  nodeSize : ℕ
  tensorSize : ℕ
  contiguousSize : ℕ
  refNodeSize : ℕ
  streamSize : ℕ
  streamGroupSize : ℕ
  tensors : List SomasJsonTensor
deriving DecidableEq, Repr

/-- Registry-side per-tensor fields checked by `UpdateTensorsOffset`. -/
structure TensorRec where
  alignedSize : ℕ
  originalSize : ℕ
  lifelongValue : LifeLongType
  lifeStart : ℕ
  lifeEnd : ℕ
deriving DecidableEq, Repr

/-- The freshly built registry state consulted during cache verification:
graph id, model hash, structural counts and the `tensors_map_` lookup. -/
structure SomasRegistry where
  graphId : ℕ
  hashId : ℕ
  nodesCount : ℕ
  tensorsCount : ℕ
  contiguousCount : ℕ
  refNodeCount : ℕ
  streamsCount : ℕ
  streamGroupsCount : ℕ
  tensorsMap : ℕ → Option TensorRec

/-- `Somas::VerifySomasResult`: the chain of early-return mismatch checks on
graph id, hash id and the six structural counts (equivalently their
conjunction). -/
def verifySomasResult (r : SomasRegistry) (j : SomasCacheJson) : Bool :=
  decide (j.graphId = r.graphId) && decide (j.hashId = r.hashId) &&
  decide (j.nodeSize = r.nodesCount) &&
  decide (j.tensorSize = r.tensorsCount) &&
  decide (j.contiguousSize = r.contiguousCount) &&
  decide (j.refNodeSize = r.refNodeCount) &&
  decide (j.streamSize = r.streamsCount) &&
  decide (j.streamGroupSize = r.streamGroupsCount)

/-- `Somas::UpdateTensorsOffset`: walk the per-tensor records, re-validating
aligned size, original size, lifelong value and lifetime bounds against the
registry; on the first mismatch (or unknown tensor id) stop with failure,
keeping the offsets written so far; otherwise adopt each cached offset. -/
def updateTensorsOffset (r : SomasRegistry) (off : ℕ → ℕ) :
    List SomasJsonTensor → Bool × (ℕ → ℕ)
  | [] => (true, off)
  | tj :: rest =>
    match r.tensorsMap tj.tensorId with
    | none => (false, off)
    | some t =>
      if tj.size ≠ t.alignedSize then (false, off)
      else if tj.oriSize ≠ t.originalSize then (false, off)
      else if tj.lifelongValue ≠ t.lifelongValue then (false, off)
      else if tj.lifeStart ≠ t.lifeStart then (false, off)
      else if tj.lifeEnd ≠ t.lifeEnd then (false, off)
      else updateTensorsOffset r (Function.update off tj.tensorId tj.offset) rest

/-- Outcome of one attempt to read and parse the cache file. -/
inductive ReadAttempt where
  | openFail
  | parseFail
  | ok (j : SomasCacheJson)

/-- Outcome of `Somas::LoadSomasResult`: `soft` is a `false` return (cache
miss / verification failure; carries the mem offset and offsets as left
behind), `thrown` is an exception escaping the function, `success` adopts the
cached plan. -/
inductive LoadOutcome where
  | soft (memOffset : ℕ) (off : ℕ → ℕ)
  | thrown
  | success (memOffset : ℕ) (off : ℕ → ℕ)

/-- The tail of `Somas::LoadSomasResult` once a JSON document was parsed:
verify (soft failure on mismatch, leaving state untouched), then adopt
`mem_offset` and walk `UpdateTensorsOffset` (soft failure on a per-tensor
mismatch, with partially written offsets). -/
def processSomasJson (r : SomasRegistry) (memOffset0 : ℕ) (off0 : ℕ → ℕ)
    (j : SomasCacheJson) : LoadOutcome :=
  if verifySomasResult r j then
    if (updateTensorsOffset r off0 j.tensors).1 then
      LoadOutcome.success j.memOffset (updateTensorsOffset r off0 j.tensors).2
    else LoadOutcome.soft j.memOffset (updateTensorsOffset r off0 j.tensors).2
  else LoadOutcome.soft memOffset0 off0

/-- `Somas::LoadSomasResult` file handling: an open failure returns false at
once (no retry); a parse exception sleeps and retries exactly once — on the
retry an open failure returns false, but the retry's parse runs OUTSIDE the
try/catch, so a second parse failure lets the exception escape. -/
def loadSomasResult (a1 a2 : ReadAttempt) (r : SomasRegistry)
    (memOffset0 : ℕ) (off0 : ℕ → ℕ) : LoadOutcome :=
  match a1 with
  | ReadAttempt.openFail => LoadOutcome.soft memOffset0 off0
  | ReadAttempt.ok j => processSomasJson r memOffset0 off0 j
  | ReadAttempt.parseFail =>
    match a2 with
    | ReadAttempt.openFail => LoadOutcome.soft memOffset0 off0
    | ReadAttempt.parseFail => LoadOutcome.thrown
    | ReadAttempt.ok j => processSomasJson r memOffset0 off0 j

/-- Modelled from the spec (`SomasTensor::SetOffset`; `somas_tensor.h` is
not part of this tree): after solving, every tensor adopts its solver
offset, except that a tensor whose aligned size is zero keeps whatever its
`offset_` field currently holds. -/
def assignFreshOffsets (sizes solverOff : ℕ → ℕ) (tensorIds : List ℕ)
    (off : ℕ → ℕ) : ℕ → ℕ :=
  tensorIds.foldl
    (fun o tid =>
      if sizes tid ≠ 0 then Function.update o tid (solverOff tid) else o)
    off

/-- The offset epilogue of the fresh path (`Somas::Assign`,
somas.cc:1381-1387): write the solver offsets into the tensors (`SetOffset`
per tensor), then run `UpdateRefTensorsOffset` and
`UpdateContiguousTensorsOffset` on the result.  The starting `off` is
whatever the `offset_` fields hold when the fresh path runs — including
offsets a failed cache load partially wrote. -/
def freshPlanOffsets (sizes solverOff : ℕ → ℕ) (tensorIds : List ℕ)
    (refLists contigLists : List (List ℕ)) (refPairs : List (ℕ × ℕ))
    (off : ℕ → ℕ) : ℕ → ℕ :=
  updateContiguousTensorsOffset contigLists refPairs
    (updateRefTensorsOffset refLists
      (assignFreshOffsets sizes solverOff tensorIds off))

/-- The cache-bracketing control flow of `Somas::Allocate`
(somas.cc:90-121): try `LoadSomasCache`; on success adopt the cached mem
offset and offsets; on a soft failure fall through to conflict computation
and `Somas::Assign`, whose epilogue writes the external solver's offsets
(`solverOff`, with footprint `solverMax` from `GetMaxOffset`) on top of the
offsets the failed load left behind and then propagates ref/contiguous
constraints; an escaped exception aborts the compile.  `useCache` stands for
`LoadSomasCache`'s tensor-count threshold gate. -/
def allocate (a1 a2 : ReadAttempt) (r : SomasRegistry) (memOffset0 : ℕ)
    (off0 : ℕ → ℕ) (useCache : Bool) (sizes solverOff : ℕ → ℕ)
    (tensorIds : List ℕ) (refLists contigLists : List (List ℕ))
    (refPairs : List (ℕ × ℕ)) (solverMax : ℕ) :
    Except Unit (ℕ × (ℕ → ℕ)) :=
  if useCache then
    match loadSomasResult a1 a2 r memOffset0 off0 with
    | LoadOutcome.success m o => Except.ok (m, o)
    | LoadOutcome.soft _ o =>
      Except.ok (solverMax,
        freshPlanOffsets sizes solverOff tensorIds refLists contigLists
          refPairs o)
    | LoadOutcome.thrown => Except.error ()
  else
    Except.ok (solverMax,
      freshPlanOffsets sizes solverOff tensorIds refLists contigLists
        refPairs off0)

/-- A cached tensor record disagreeing with the registry on any re-validated
field (or naming an unknown tensor). -/
def tensorJsonMismatch (r : SomasRegistry) (tj : SomasJsonTensor) : Prop :=
  r.tensorsMap tj.tensorId = none ∨
  ∃ t, r.tensorsMap tj.tensorId = some t ∧
    (tj.size ≠ t.alignedSize ∨ tj.oriSize ≠ t.originalSize ∨
     tj.lifelongValue ≠ t.lifelongValue ∨ tj.lifeStart ≠ t.lifeStart ∨
     tj.lifeEnd ≠ t.lifeEnd)

theorem updateTensorsOffset_mismatch_false (r : SomasRegistry) (off : ℕ → ℕ)
    (l : List SomasJsonTensor) (hbad : ∃ tj ∈ l, tensorJsonMismatch r tj) :
    (updateTensorsOffset r off l).1 = false := by
  induction l generalizing off with
  | nil =>
    obtain ⟨tj, htj, -⟩ := hbad
    exact absurd htj (List.not_mem_nil tj)
  | cons tj rest ih =>
    rw [updateTensorsOffset]
    rcases hmap : r.tensorsMap tj.tensorId with - | t
    · rfl
    · dsimp only
      by_cases h1 : tj.size ≠ t.alignedSize
      · rw [if_pos h1]
      · rw [if_neg h1]
        by_cases h2 : tj.oriSize ≠ t.originalSize
        · rw [if_pos h2]
        · rw [if_neg h2]
          by_cases h3 : tj.lifelongValue ≠ t.lifelongValue
          · rw [if_pos h3]
          · rw [if_neg h3]
            by_cases h4 : tj.lifeStart ≠ t.lifeStart
            · rw [if_pos h4]
            · rw [if_neg h4]
              by_cases h5 : tj.lifeEnd ≠ t.lifeEnd
              · rw [if_pos h5]
              · rw [if_neg h5]
                refine ih _ ?_
                obtain ⟨tj2, htj2, hb⟩ := hbad
                rcases List.mem_cons.mp htj2 with rfl | htj2
                · rcases hb with hb | ⟨t2, ht2, hb⟩
                  · rw [hmap] at hb
                    exact absurd hb (Option.some_ne_none t)
                  · rw [hmap, Option.some_inj] at ht2
                    subst ht2
                    push_neg at h1 h2 h3 h4 h5
                    rcases hb with hb | hb | hb | hb | hb
                    · exact absurd h1 hb
                    · exact absurd h2 hb
                    · exact absurd h3 hb
                    · exact absurd h4 hb
                    · exact absurd h5 hb
                · exact ⟨tj2, htj2, hb⟩

theorem assignFreshOffsets_not_mem (sizes solverOff : ℕ → ℕ) (l : List ℕ)
    (x : ℕ) :
    ∀ o : ℕ → ℕ, x ∉ l → assignFreshOffsets sizes solverOff l o x = o x := by
  induction l with
  | nil => intro o _; rfl
  | cons a rest ih =>
    intro o hx
    have hstep : assignFreshOffsets sizes solverOff (a :: rest) o
        = assignFreshOffsets sizes solverOff rest
          (if sizes a ≠ 0 then Function.update o a (solverOff a) else o) := rfl
    rw [hstep, ih _ (fun h => hx (List.mem_cons_of_mem a h))]
    by_cases hsa : sizes a ≠ 0
    · rw [if_pos hsa]
      exact Function.update_noteq
        (fun h : x = a => hx (by rw [h]; exact List.mem_cons_self a rest)) _ _
    · rw [if_neg hsa]

theorem assignFreshOffsets_sets (sizes solverOff : ℕ → ℕ)
    (tensorIds : List ℕ) (tid : ℕ) (hsz : sizes tid ≠ 0) :
    ∀ o : ℕ → ℕ, tid ∈ tensorIds →
      assignFreshOffsets sizes solverOff tensorIds o tid = solverOff tid := by
  induction tensorIds with
  | nil => intro o htid; exact absurd htid (List.not_mem_nil tid)
  | cons a rest ih =>
    intro o htid
    have hstep : assignFreshOffsets sizes solverOff (a :: rest) o
        = assignFreshOffsets sizes solverOff rest
          (if sizes a ≠ 0 then Function.update o a (solverOff a) else o) := rfl
    rw [hstep]
    by_cases hmem : tid ∈ rest
    · exact ih _ hmem
    · have htid_a : tid = a := by
        rcases List.mem_cons.mp htid with h | h
        · exact h
        · exact absurd h hmem
      rw [assignFreshOffsets_not_mem sizes solverOff rest tid _ hmem]
      rw [htid_a] at hsz ⊢
      rw [if_pos hsz, Function.update_same]

/-- Offset assigned to one tensor by an `allocate` outcome (`none` when the
compile aborted). -/
def planOffsetAt (e : Except Unit (ℕ × (ℕ → ℕ))) (tid : ℕ) : Option ℕ :=
  match e with
  | Except.error _ => none
  | Except.ok (_, o) => some (o tid)

/-- Registry for the C3 counterexample: tensor 0 has aligned size 0, tensor
1 has aligned size 100 (original size 96). -/
def regC3 : SomasRegistry :=
  ⟨1, 99, 5, 6, 1, 0, 1, 1,
    fun t =>
      if t = 0 then some ⟨0, 0, LifeLongType.kLifeLongNone, 0, 0⟩
      else if t = 1 then some ⟨100, 96, LifeLongType.kLifeLongNone, 0, 3⟩
      else none⟩

/-- Cached document for the C3 counterexample: every structural count
matches, tensor 0 re-validates and gets its cached offset 512 written, then
tensor 1 mismatches on the original size (97 vs 96). -/
def jsonC3 : SomasCacheJson :=
  ⟨1, 99, 4096, 5, 6, 1, 0, 1, 1,
    [⟨0, 0, 0, LifeLongType.kLifeLongNone, 0, 0, 512⟩,
      ⟨1, 100, 97, LifeLongType.kLifeLongNone, 0, 3, 640⟩]⟩

/-- Aligned sizes for the C3 counterexample. -/
def sizesC3 : ℕ → ℕ := fun t => if t = 0 then 0 else 100

/-- External solver offsets for the C3 counterexample. -/
def solverOffC3 : ℕ → ℕ := fun t => 512 * t

/-- C3 counterexample: the failed cache load leaves its partially written
offset (512 on zero-size tensor 0) behind; the fresh path's `SetOffset`
skips zero-size tensors, so the stale value survives and the contiguous gap
bump lands on 512 instead of 0 — the run with the failed cache places tensor
0 at 1024 where the run with no cache places it at 512.  The mismatch is
soft both times, but the resulting plans differ. -/
theorem cache_mismatch_plan_divergence_counterexample :
    verifySomasResult regC3 jsonC3 = true ∧
    (updateTensorsOffset regC3 (fun _ => 0) jsonC3.tensors).1 = false ∧
    loadSomasResult (ReadAttempt.ok jsonC3) ReadAttempt.openFail regC3 0
        (fun _ => 0)
      = LoadOutcome.soft jsonC3.memOffset
          (Function.update (fun _ => 0) 0 512) ∧
    planOffsetAt (allocate (ReadAttempt.ok jsonC3) ReadAttempt.openFail regC3
        0 (fun _ => 0) true sizesC3 solverOffC3 [0, 1] [] [[0, 1]] [] 2048) 0
      = some 1024 ∧
    planOffsetAt (allocate ReadAttempt.openFail ReadAttempt.openFail regC3
        0 (fun _ => 0) true sizesC3 solverOffC3 [0, 1] [] [[0, 1]] [] 2048) 0
      = some 512 ∧
    allocate (ReadAttempt.ok jsonC3) ReadAttempt.openFail regC3 0
        (fun _ => 0) true sizesC3 solverOffC3 [0, 1] [] [[0, 1]] [] 2048
      ≠ allocate ReadAttempt.openFail ReadAttempt.openFail regC3 0
        (fun _ => 0) true sizesC3 solverOffC3 [0, 1] [] [[0, 1]] [] 2048 := by
  have h4 : planOffsetAt (allocate (ReadAttempt.ok jsonC3)
      ReadAttempt.openFail regC3 0 (fun _ => 0) true sizesC3 solverOffC3
      [0, 1] [] [[0, 1]] [] 2048) 0 = some 1024 := rfl
  have h5 : planOffsetAt (allocate ReadAttempt.openFail ReadAttempt.openFail
      regC3 0 (fun _ => 0) true sizesC3 solverOffC3 [0, 1] [] [[0, 1]] []
      2048) 0 = some 512 := rfl
  refine ⟨rfl, rfl, rfl, h4, h5, ?_⟩
  intro h
  rw [h, h5] at h4
  exact absurd h4 (by decide)

/-- C3 (amended): when any structural field or any re-validated per-tensor
field of a parsed cache document disagrees with the freshly built registry,
the load reports soft failure (a `false` return, never an abort) and the
allocate pipeline proceeds to the fresh conflict computation and solve; the
footprint and every solver-assigned offset (each tensor of non-zero aligned
size, before ref/contiguous propagation) match the run with no cache file,
but zero-aligned-size tensors keep the offsets the failed load partially
wrote, so values propagated from them may differ from the no-cache run. -/
theorem cache_mismatch_soft_failure_amended (r : SomasRegistry)
    (j : SomasCacheJson) (a2 : ReadAttempt) (memOffset0 : ℕ) (off0 : ℕ → ℕ)
    (sizes solverOff : ℕ → ℕ) (tensorIds : List ℕ)
    (refLists contigLists : List (List ℕ)) (refPairs : List (ℕ × ℕ))
    (solverMax : ℕ)
    (hmis : j.graphId ≠ r.graphId ∨ j.hashId ≠ r.hashId ∨
      j.nodeSize ≠ r.nodesCount ∨ j.tensorSize ≠ r.tensorsCount ∨
      j.contiguousSize ≠ r.contiguousCount ∨
      j.refNodeSize ≠ r.refNodeCount ∨ j.streamSize ≠ r.streamsCount ∨
      j.streamGroupSize ≠ r.streamGroupsCount ∨
      ∃ tj ∈ j.tensors, tensorJsonMismatch r tj) :
    ∃ mo o,
      loadSomasResult (ReadAttempt.ok j) a2 r memOffset0 off0
          = LoadOutcome.soft mo o ∧
      allocate (ReadAttempt.ok j) a2 r memOffset0 off0 true sizes solverOff
          tensorIds refLists contigLists refPairs solverMax
        = Except.ok (solverMax,
            freshPlanOffsets sizes solverOff tensorIds refLists contigLists
              refPairs o) ∧
      allocate ReadAttempt.openFail a2 r memOffset0 off0 true sizes solverOff
          tensorIds refLists contigLists refPairs solverMax
        = Except.ok (solverMax,
            freshPlanOffsets sizes solverOff tensorIds refLists contigLists
              refPairs off0) ∧
      ∀ tid ∈ tensorIds, sizes tid ≠ 0 →
        assignFreshOffsets sizes solverOff tensorIds o tid
          = assignFreshOffsets sizes solverOff tensorIds off0 tid := by
  have hload : ∃ mo o, loadSomasResult (ReadAttempt.ok j) a2 r memOffset0 off0
      = LoadOutcome.soft mo o := by
    have hstep : loadSomasResult (ReadAttempt.ok j) a2 r memOffset0 off0
        = processSomasJson r memOffset0 off0 j := rfl
    rw [hstep, processSomasJson]
    by_cases hv : verifySomasResult r j = true
    · rw [if_pos hv]
      have hv2 := hv
      simp only [verifySomasResult, Bool.and_eq_true, decide_eq_true_eq] at hv2
      obtain ⟨⟨⟨⟨⟨⟨⟨h1, h2⟩, h3⟩, h4⟩, h5⟩, h6⟩, h7⟩, h8⟩ := hv2
      have hbad : ∃ tj ∈ j.tensors, tensorJsonMismatch r tj := by
        rcases hmis with h | h | h | h | h | h | h | h | h
        · exact absurd h1 h
        · exact absurd h2 h
        · exact absurd h3 h
        · exact absurd h4 h
        · exact absurd h5 h
        · exact absurd h6 h
        · exact absurd h7 h
        · exact absurd h8 h
        · exact h
      rw [if_neg (by
        rw [updateTensorsOffset_mismatch_false r off0 j.tensors hbad]
        exact Bool.false_ne_true)]
      exact ⟨j.memOffset, _, rfl⟩
    · rw [if_neg hv]
      exact ⟨memOffset0, off0, rfl⟩
  obtain ⟨mo, o, he⟩ := hload
  refine ⟨mo, o, he, ?_, rfl, ?_⟩
  · have hstep : allocate (ReadAttempt.ok j) a2 r memOffset0 off0 true sizes
        solverOff tensorIds refLists contigLists refPairs solverMax
        = match loadSomasResult (ReadAttempt.ok j) a2 r memOffset0 off0 with
          | LoadOutcome.success m o2 => Except.ok (m, o2)
          | LoadOutcome.soft _ o2 =>
            Except.ok (solverMax,
              freshPlanOffsets sizes solverOff tensorIds refLists contigLists
                refPairs o2)
          | LoadOutcome.thrown => Except.error () := rfl
    rw [hstep, he]
  · intro tid htid hsz
    rw [assignFreshOffsets_sets sizes solverOff tensorIds tid hsz o htid,
      assignFreshOffsets_sets sizes solverOff tensorIds tid hsz off0 htid]

/-- Cached document for the C3 witness: graph id disagrees (2 vs 1). -/
def jsonC3w : SomasCacheJson := ⟨2, 99, 4096, 5, 6, 1, 0, 1, 1, []⟩

theorem cache_mismatch_soft_failure_amended_witness :
    (jsonC3w.graphId ≠ regC3.graphId ∨ jsonC3w.hashId ≠ regC3.hashId ∨
      jsonC3w.nodeSize ≠ regC3.nodesCount ∨
      jsonC3w.tensorSize ≠ regC3.tensorsCount ∨
      jsonC3w.contiguousSize ≠ regC3.contiguousCount ∨
      jsonC3w.refNodeSize ≠ regC3.refNodeCount ∨
      jsonC3w.streamSize ≠ regC3.streamsCount ∨
      jsonC3w.streamGroupSize ≠ regC3.streamGroupsCount ∨
      ∃ tj ∈ jsonC3w.tensors, tensorJsonMismatch regC3 tj) ∧
    ∃ mo o,
      loadSomasResult (ReadAttempt.ok jsonC3w) ReadAttempt.openFail regC3 0
          (fun _ => 0) = LoadOutcome.soft mo o ∧
      allocate (ReadAttempt.ok jsonC3w) ReadAttempt.openFail regC3 0
          (fun _ => 0) true sizesC3 solverOffC3 [0, 1] [] [[0, 1]] [] 2048
        = Except.ok (2048,
            freshPlanOffsets sizesC3 solverOffC3 [0, 1] [] [[0, 1]] [] o) ∧
      allocate ReadAttempt.openFail ReadAttempt.openFail regC3 0
          (fun _ => 0) true sizesC3 solverOffC3 [0, 1] [] [[0, 1]] [] 2048
        = Except.ok (2048,
            freshPlanOffsets sizesC3 solverOffC3 [0, 1] [] [[0, 1]] []
              (fun _ => 0)) ∧
      ∀ tid ∈ ([0, 1] : List ℕ), sizesC3 tid ≠ 0 →
        assignFreshOffsets sizesC3 solverOffC3 [0, 1] o tid
          = assignFreshOffsets sizesC3 solverOffC3 [0, 1] (fun _ => 0) tid :=
  ⟨Or.inl (by decide),
    cache_mismatch_soft_failure_amended regC3 jsonC3w ReadAttempt.openFail 0
      (fun _ => 0) sizesC3 solverOffC3 [0, 1] [] [[0, 1]] [] 2048
      (Or.inl (by decide))⟩

/-- Registry for the C8 counterexample. -/
def regC8 : SomasRegistry := ⟨0, 0, 0, 0, 0, 0, 0, 0, fun _ => none⟩

/-- C8 counterexample: when both the first parse and the retry's parse fail,
`LoadSomasResult` does NOT fail softly — the retry's `retry_tmp >> somas_json`
runs outside the try/catch, so the exception escapes (aborting the compile)
instead of falling back to fresh computation. -/
theorem cache_retry_counterexample :
    loadSomasResult ReadAttempt.parseFail ReadAttempt.parseFail regC8 0
        (fun _ => 0) = LoadOutcome.thrown ∧
    ∀ mo o, loadSomasResult ReadAttempt.parseFail ReadAttempt.parseFail regC8
        0 (fun _ => 0) ≠ LoadOutcome.soft mo o := by
  refine ⟨rfl, ?_⟩
  intro mo o h
  rw [show loadSomasResult ReadAttempt.parseFail ReadAttempt.parseFail regC8 0
      (fun _ => 0) = LoadOutcome.thrown from rfl] at h
  exact LoadOutcome.noConfusion h

/-- C8 (amended): the retry is bound to the parse-failure path only — an open
failure fails softly at once with no second attempt (the outcome ignores the
second attempt entirely); after a first parse failure there is exactly one
retry: an open failure on the retry is a soft failure, a successful parse on
the retry proceeds to verification, but a second parse failure propagates the
exception rather than failing softly. -/
theorem cache_retry_amended (r : SomasRegistry) (memOffset0 : ℕ)
    (off0 : ℕ → ℕ) :
    (∀ a2, loadSomasResult ReadAttempt.openFail a2 r memOffset0 off0
        = LoadOutcome.soft memOffset0 off0) ∧
    loadSomasResult ReadAttempt.parseFail ReadAttempt.openFail r memOffset0
        off0 = LoadOutcome.soft memOffset0 off0 ∧
    loadSomasResult ReadAttempt.parseFail ReadAttempt.parseFail r memOffset0
        off0 = LoadOutcome.thrown ∧
    ∀ j, loadSomasResult ReadAttempt.parseFail (ReadAttempt.ok j) r memOffset0
        off0 = processSomasJson r memOffset0 off0 j :=
  ⟨fun _ => rfl, rfl, rfl, fun _ => rfl⟩
